import Mathlib

/-!
Verification of the operation executor of a Python package manager
(`src/poetry/installation/executor.py`).

The executor is shallow-embedded as follows.

* The pure list helpers `take` (lines 30-31) and `chunked` (lines 34-35) and
  the `itertools.groupby` call of `execute` (line 80) are embedded as
  executable Lean list functions (`take`, `chunked`, `groupbyKey`).
* The scheduler `execute` (lines 69-105) and the per-operation dispatcher
  `_execute_operation` (lines 119-149) are embedded as trace-producing
  functions: every console write, filesystem mutation and process invocation
  becomes an `Effect` in an output list, and the work done by the concrete
  `_execute_install` / `_execute_update` / `_execute_uninstall` methods is a
  parameter (`Inner`), instantiated with the faithful uninstall model where a
  concrete inner action is needed.
* The artifact fetcher `_download` (lines 380-435) is embedded with an
  explicit filesystem (an association list from paths to byte lists), a
  network-request counter and a chef-invocation counter.
* `_remove` / `_execute_uninstall` (lines 226-232, 262-277) and
  `_install_directory` (lines 279-335) are embedded directly.

External collaborators (the HTTP session, the chef, the chooser, the hash of
`FileDependency`, the pip subprocess) are oracles supplied in environment
records; everything the source file itself computes is written out.
-/

namespace PoetryExec

/-- Byte contents of a downloaded body or a file on disk. -/
abbrev Bytes := List Nat

/-! ## Pure helpers from the source (executor.py lines 30-35, 80) -/

/-- Embeds `take` (executor.py lines 30-31): `list(itertools.islice(iterable, n))`. -/
def take (n : Nat) (iterable : List α) : List α :=
  iterable.take n

/-- Fuel-driven worker for `chunked`; the fuel is the input length, so the
recursion is structural and the function evaluates by `rfl`/`decide`. -/
def chunkedGo (n : Nat) : Nat → List α → List (List α)
  | _, [] => []
  | 0, _ :: _ => []
  | fuel + 1, x :: xs => take n (x :: xs) :: chunkedGo n fuel ((x :: xs).drop n)

/-- Embeds `chunked` (executor.py lines 34-35):
`iter(partial(take, n, iter(iterable)), [])`, i.e. repeatedly take `n`
elements until the empty list is produced.  With `n = 0` the first `take`
already returns `[]`, so no chunk is yielded at all, matching the Python
sentinel semantics. -/
def chunked (iterable : List α) (n : Nat) : List (List α) :=
  if n = 0 then [] else chunkedGo n iterable.length iterable

/-- Longest prefix of elements whose key equals `k`, together with the rest;
this is how one `itertools.groupby` group is consumed. -/
def spanKey (key : α → Int) (k : Int) : List α → List α × List α
  | [] => ([], [])
  | x :: xs =>
    if key x = k then
      ((x :: (spanKey key k xs).1), (spanKey key k xs).2)
    else
      ([], x :: xs)

/-- Fuel-driven worker for `groupbyKey`. -/
def groupbyGo (key : α → Int) : Nat → List α → List (List α)
  | _, [] => []
  | 0, _ :: _ => []
  | fuel + 1, x :: xs =>
    (x :: (spanKey key (key x) xs).1) :: groupbyGo key fuel (spanKey key (key x) xs).2

/-- Embeds `itertools.groupby(operations, key=...)` (executor.py line 80):
maximal runs of consecutive elements with equal key, in input order.  `groupby`
does not sort: elements with equal keys that are not adjacent end up in
distinct groups. -/
def groupbyKey (key : α → Int) (l : List α) : List (List α) :=
  groupbyGo key l.length l

/-! ## Data model -/

/-- The `job_type` of an operation, a closed variant in the embedding. -/
inductive JobType
  | install
  | uninstall
  | update
deriving DecidableEq

/-- One entry of `package.files`: an expected artifact name and hash. -/
structure FileEntry where
  file : String
  hash : String
deriving DecidableEq

/-- The fields of a package that the executor reads. `sourceType` is one of
`""` (registry), `"directory"`, `"git"`. -/
structure Package where
  name : String
  version : String
  sourceType : String
  sourceUrl : String
  sourceReference : String
  rootDir : Option String
  develop : Bool
  files : List FileEntry
deriving DecidableEq

/-- One operation handed to the executor.  `opId` models Python reference
identity `id(operation)` (line 87).  For install/uninstall the executor reads
`package`; for update it reads `initialPackage` and `targetPackage`. -/
structure Operation where
  opId : Nat
  jobType : JobType
  priority : Int
  skipped : Bool
  skipReason : String
  package : Package
  initialPackage : Package
  targetPackage : Package
deriving DecidableEq

/-- Executor configuration flags plus the two console capability queries the
source consults (`supports_ansi`, `is_debug`). -/
structure Config where
  enabled : Bool
  dryRun : Bool
  verbose : Bool
  supportsAnsi : Bool
  isDebug : Bool
deriving DecidableEq

/-- Observable effects of the executor: a full console line (`write_line`), a
raw console write (`write`, used for the cursor escape sequences), a
filesystem mutation, and a subprocess invocation. -/
inductive Effect
  | writeLine (s : String)
  | write (s : String)
  | mut (s : String)
  | run (args : List String)
deriving DecidableEq

/-- True for effects that mutate the filesystem or spawn a process. -/
def isMutation : Effect → Bool
  | .mut _ => true
  | .run _ => true
  | _ => false

/-- True for raw console writes that start with the ANSI escape introducer
(cursor movement / line clearing sequences). -/
def escWrite : Effect → Bool
  | .write s => List.isPrefixOf "\x1b[".data s.data
  | _ => false

/-! ## Messages (executor.py lines 154-172 and the format strings) -/

/-- Embeds `get_operation_message` (lines 154-172). -/
def getOperationMessage (op : Operation) : String :=
  match op.jobType with
  | .install =>
    "Installing <c1>" ++ op.package.name ++ "</c1> (<c2>" ++ op.package.version ++ "</c2>)"
  | .uninstall =>
    "Removing <c1>" ++ op.package.name ++ "</c1> (<c2>" ++ op.package.version ++ "</c2>)"
  | .update =>
    "Updating <c1>" ++ op.initialPackage.name ++ "</c1> (<c2>"
      ++ op.initialPackage.version ++ "</c2> -> <c2>" ++ op.targetPackage.version ++ "</c2>)"

/-- The bullet progress line printed for an operation (lines 89-93 and
134-138 share this format string). -/
def predispatchText (op : Operation) : String :=
  "  <fg=blue;options=bold>•</> " ++ getOperationMessage op

/-- The skip report line (lines 125-129). -/
def skipText (op : Operation) : String :=
  predispatchText op ++ ": <fg=yellow>Skipped</> (" ++ op.skipReason ++ ")"

/-- The terminal success line (lines 144-146). -/
def successText (op : Operation) : String :=
  "  <fg=green;options=bold>✓</> " ++ getOperationMessage op

/-- The transition line of `_execute_uninstall` (lines 227-229). -/
def removingText (op : Operation) : String :=
  predispatchText op ++ ": <info>Removing...</info>"

/-- The transition line of `_install` (lines 248-250). -/
def installingText (op : Operation) : String :=
  predispatchText op ++ ": <info>Installing...</info>"

/-- The status line of `_download` (lines 393-395). -/
def downloadingText (op : Operation) : String :=
  predispatchText op ++ ": <info>Downloading...</>"

/-! ## The progress reporter `_write` (executor.py lines 107-117) -/

/-- Embeds `_write` (lines 107-117): compute the cursor offset from the row
map, move up, clear the line, write the new text, move back down.  The escape
sequences are emitted unconditionally; there is no capability check in
`_write`.  The row lookup models `self._lines[id(operation)]`; in every
reachable call the key is present (it was inserted by `execute`). -/
def writeEffects (lines : List (Nat × Nat)) (op : Operation) (line : String) : List Effect :=
  let diff := lines.length - ((lines.lookup op.opId).getD 0)
  [Effect.write ("\x1b[" ++ toString diff ++ "A"),
   Effect.write "\x1b[2K\r",
   Effect.writeLine line,
   Effect.write ("\x1b[" ++ toString diff ++ "B")]

/-! ## Scheduler and dispatcher (executor.py lines 69-149) -/

/-- The behaviour of the concrete per-kind action reached by
`getattr(self, "_execute_{}".format(method))(operation)` (line 142):
whether it raises, and the effects it emits (up to the raise if it raises).
It receives the current row map because the actions call `_write`. -/
structure Inner where
  raises : Operation → Bool
  fx : List (Nat × Nat) → Operation → List Effect

/-- Embeds `_execute_operation` (lines 119-149).  Returns the effects emitted,
the increment applied to `self._executed_operations`, and whether the call
raised.  Skip handling comes first (lines 123-131), then the
disabled/dry-run report-only path (lines 133-140), then dispatch plus the
success rewrite and the counter increment (lines 142-149). -/
def executeOperation (cfg : Config) (inner : Inner) (lines : List (Nat × Nat))
    (op : Operation) : List Effect × Nat × Bool :=
  if op.skipped then
    if cfg.verbose && (cfg.enabled || cfg.dryRun) then
      ([Effect.writeLine (skipText op)], 0, false)
    else
      ([], 0, false)
  else if !cfg.enabled || cfg.dryRun then
    ([Effect.writeLine (predispatchText op)], 0, false)
  else if inner.raises op then
    (inner.fx lines op, 0, true)
  else
    (inner.fx lines op ++ writeEffects lines op (successText op), 1, false)

/-- Embeds the row-allocation loop of `execute` (lines 85-93): starting from
the given map and effect list, insert each not-yet-seen operation id with the
current map size as its row and print its progress line. -/
def buildLines (m : List (Nat × Nat)) (fx : List Effect) :
    List Operation → List (Nat × Nat) × List Effect
  | [] => (m, fx)
  | op :: rest =>
    if (m.lookup op.opId).isSome then
      buildLines m fx rest
    else
      buildLines (m ++ [(op.opId, m.length)])
        (fx ++ [Effect.writeLine (predispatchText op)]) rest

/-- Row allocation for one chunk; the map starts empty for every chunk
(`self._lines = OrderedDict()`, line 85). -/
def chunkSetup (chunk : List Operation) : List (Nat × Nat) × List Effect :=
  buildLines [] [] chunk

/-- Embeds the body of the per-chunk loop of `execute` (lines 84-105):
allocate rows and print the progress lines, then run every operation of the
chunk (all submitted futures run to completion; `[t.result() for t in tasks]`
re-raises if any of them raised).  Returns the chunk effects, the total
counter increment, and whether some operation raised. -/
def runChunk (cfg : Config) (inner : Inner) (chunk : List Operation) :
    List Effect × Nat × Bool :=
  let s := chunkSetup chunk
  let rs := chunk.map (executeOperation cfg inner s.1)
  (s.2 ++ (rs.map (fun r => r.1)).flatten,
   (rs.map (fun r => r.2.1)).sum,
   rs.any (fun r => r.2.2))

/-- Runs the chunks in order; a raising chunk stops the batch (the first
raised error propagates out of `execute`, so later chunks never start). -/
def runChunks (cfg : Config) (inner : Inner) : List (List Operation) → List Effect × Nat × Bool
  | [] => ([], 0, false)
  | c :: cs =>
    let r := runChunk cfg inner c
    if r.2.2 then r
    else
      let r2 := runChunks cfg inner cs
      (r.1 ++ r2.1, r.2.1 + r2.2.1, r2.2.2)

/-- Embeds line 80: `itertools.groupby(operations, key=lambda o: -o.priority)`. -/
def executeGroups (ops : List Operation) : List (List Operation) :=
  groupbyKey (fun o => -o.priority) ops

/-- The chunk sequence `execute` iterates over: each priority group split by
`chunked(group, 5)` (line 83). -/
def allChunks (ops : List Operation) : List (List Operation) :=
  ((executeGroups ops).map (fun g => chunked g 5)).flatten

/-- Plural suffix used by `_display_summary` (lines 206-215). -/
def pluralS (n : Nat) : String :=
  if n = 1 then "" else "s"

/-- Whether `_display_summary` raises `AttributeError`: the skipped-count
suffix (lines 213-215) evaluates `skipped and self.is_verbose()`, and the
`Executor` class defines no `is_verbose` method (only the `verbose` setter
and the `_verbose` attribute), so whenever the summary runs at all (non-empty
batch with the executor enabled or in dry-run mode, lines 75-76) and the
batch contains a skipped operation, the attribute lookup raises before the
operations line is written.  With no skipped operation the `and`
short-circuits on the empty list and the lookup never happens. -/
def summaryRaises (cfg : Config) (ops : List Operation) : Bool :=
  !ops.isEmpty && (cfg.enabled || cfg.dryRun) && ops.any (fun o => o.skipped)

/-- Embeds lines 72-76 and `_display_summary` (lines 174-218): the effects
emitted up to the point where the summary either completes or raises.  The
summary classifies non-skipped operations by kind; line 200 writes an empty
line first, then lines 201-217 write the operations line — whose argument
evaluation raises `AttributeError` when the batch contains a skipped
operation (see `summaryRaises`), so on that path only the empty line is
emitted.  On the non-raising path the skipped list is empty, so the `and`
short-circuits and the skipped-count suffix is the empty string. -/
def summaryFx (cfg : Config) (ops : List Operation) : List Effect :=
  if ops.isEmpty then
    if cfg.enabled || cfg.dryRun then
      [Effect.writeLine "No dependencies to install or update"]
    else []
  else if cfg.enabled || cfg.dryRun then
    if ops.any (fun o => o.skipped) then
      [Effect.writeLine ""]
    else
      let notSkip := ops.filter (fun o => !o.skipped)
      let ni := (notSkip.filter (fun o => decide (o.jobType = JobType.install))).length
      let nu := (notSkip.filter (fun o => decide (o.jobType = JobType.update))).length
      let nr := (notSkip.filter (fun o => decide (o.jobType = JobType.uninstall))).length
      [Effect.writeLine "",
       Effect.writeLine ("Package operations: <info>" ++ toString ni ++ "</> install"
         ++ pluralS ni ++ ", <info>" ++ toString nu ++ "</> update" ++ pluralS nu
         ++ ", <info>" ++ toString nr ++ "</> removal" ++ pluralS nr),
       Effect.writeLine ""]
  else []

/-- The outcome of one `execute` call: the emitted effects, the final value of
`self._executed_operations` (starting from 0), whether the call raised, and
the Python return value.  `execute` (lines 69-105) contains no `return`
statement, so its return value is `None` on every non-raising path. -/
structure ExecResult where
  fx : List Effect
  executedOperations : Nat
  raised : Bool
  ret : Option Nat
deriving DecidableEq

/-- Embeds `execute` (lines 69-105): summary, then grouping by descending-key
`groupby`, chunking by 5, and chunk-by-chunk parallel execution with a
barrier.  When `_display_summary` raises (see `summaryRaises`), `execute`
propagates the `AttributeError` before any grouping or dispatch: no operation
runs and the counter stays 0.  The concurrent effects of one chunk are
recorded in submission order (one possible interleaving); counts and
per-operation effects do not depend on the interleaving. -/
def executeTrace (cfg : Config) (inner : Inner) (ops : List Operation) : ExecResult :=
  if summaryRaises cfg ops then
    { fx := summaryFx cfg ops, executedOperations := 0, raised := true, ret := none }
  else
    let r := runChunks cfg inner (allChunks ops)
    { fx := summaryFx cfg ops ++ r.1
      executedOperations := r.2.1
      raised := r.2.2
      ret := none }

/-! ## Uninstall (executor.py lines 226-232 and 262-277) -/

/-- Errors raised by the pip subprocess wrapper: `CalledProcessError` with its
`str(e)` message, or any other exception. -/
inductive PipErr
  | calledProcess (msg : String)
  | other (msg : String)
deriving DecidableEq

/-- View of `Except` as a sum, used to decide equality. -/
def exceptToSum : Except ε α → ε ⊕ α
  | .error e => .inl e
  | .ok a => .inr a

instance [DecidableEq ε] [DecidableEq α] : DecidableEq (Except ε α) := fun x y =>
  decidable_of_iff (exceptToSum x = exceptToSum y)
    (by cases x <;> cases y <;> simp [exceptToSum])

/-- Oracle inputs of `_remove`: whether the git source checkout directory
exists, and the outcome of `run("uninstall", name, "-y")`. -/
structure RmEnv where
  srcDirExists : Bool
  pipUninstall : Except PipErr Unit
deriving DecidableEq

/-- Abstract environment path of `self._env.path`. -/
def envPath : String := "ENVPATH"

/-- The git checkout directory `self._env.path / "src" / package.name`. -/
def srcPath (pkg : Package) : String :=
  envPath ++ "/src/" ++ pkg.name

/-- Argument vector of `run` (lines 151-152): `python -m pip` plus args. -/
def runArgs (args : List String) : List String :=
  ["python", "-m", "pip"] ++ args

/-- Python `needle in hay` substring containment on character lists. -/
def containsSub (needle : List Char) : List Char → Bool
  | [] => needle.isEmpty
  | c :: t => List.isPrefixOf needle (c :: t) || containsSub needle t

/-- Effects of `_remove` (lines 262-277): for a git-sourced package whose
checkout directory exists, remove it first; then always invoke the pip
uninstall action for the package name. -/
def removeFx (pkg : Package) (env : RmEnv) : List Effect :=
  (if pkg.sourceType = "git" then
    (if env.srcDirExists then [Effect.mut ("rmtree " ++ srcPath pkg)] else [])
  else [])
  ++ [Effect.run (runArgs ["uninstall", pkg.name, "-y"])]

/-- Result of `_remove` (lines 271-277): a `CalledProcessError` whose message
contains "not installed" is swallowed; every other error propagates. -/
def removeResult (env : RmEnv) : Except PipErr Unit :=
  match env.pipUninstall with
  | .ok _ => .ok ()
  | .error (.calledProcess msg) =>
    if containsSub "not installed".data msg.data then .ok ()
    else .error (.calledProcess msg)
  | .error (.other msg) => .error (.other msg)

/-- True when an `Except` carries an error. -/
def raisedOf : Except PipErr Unit → Bool
  | .ok _ => false
  | .error _ => true

/-- True when an `Except` value is a success. -/
def exceptOk : Except ε α → Bool
  | .ok _ => true
  | .error _ => false

/-- Embeds `_execute_uninstall` (lines 226-232): rewrite the operation line to
"Removing...", then run `_remove`.  The effects are emitted even when the
uninstall action afterwards raises. -/
def execUninstall (lines : List (Nat × Nat)) (op : Operation) (env : RmEnv) :
    List Effect × Bool :=
  (writeEffects lines op (removingText op) ++ removeFx op.package env,
   raisedOf (removeResult env))

/-- The dispatcher inner action of an uninstall operation, backed by the
faithful `_execute_uninstall` model. -/
def uninstallInner (env : RmEnv) : Inner :=
  { raises := fun _ => raisedOf (removeResult env)
    fx := fun lines op => (execUninstall lines op env).1 }

/-! ## Directory install (executor.py lines 279-335) -/

/-- Oracle inputs of `_install_directory`: whether `pyproject.toml` exists,
whether it has a `[tool.poetry]` section, whether `setup.py` already exists,
and whether the pip invocation raises. -/
structure DirEnv where
  hasPyproject : Bool
  hasPoetryTool : Bool
  setupExists : Bool
  runRaises : Bool
deriving DecidableEq

/-- Outcome of `_install_directory`: whether it raised, whether `setup.py` is
present in the source directory on return, whether a temporary `setup.py` was
synthesized, and the pip argument vector used. -/
structure DirResult where
  raised : Bool
  setupPresent : Bool
  synthesized : Bool
  pipArgs : List String
deriving DecidableEq

/-- Embeds `_install_directory` (lines 279-335).  `has_build_system` is
always `False` in the source: the `"build-system" in pyproject_content` check
(line 311) is commented out.  The temporary `setup.py` is written when the
directory has a poetry `pyproject.toml` and no `setup.py` (line 315); the
`finally` block (lines 333-335) removes `setup.py` when it did not exist
before the call and exists now, on both the success and the raise path of
`self.run(*args)`.  Path joining of `req` is modelled as string
concatenation. -/
def installDirectory (pkg : Package) (env : DirEnv) : DirResult :=
  let req := match pkg.rootDir with
    | some r => r ++ "/" ++ pkg.sourceUrl
    | none => pkg.sourceUrl
  let hasPoetry := env.hasPyproject && env.hasPoetryTool
  let hasBuildSystem := false
  let hasSetup := env.setupExists
  let synth := !hasSetup && hasPoetry && (pkg.develop || !hasBuildSystem)
  let present1 := hasSetup || synth
  let presentFinal := if !hasSetup && present1 then false else present1
  { raised := env.runRaises
    setupPresent := presentFinal
    synthesized := synth
    pipArgs := runArgs (["install", "--no-deps", "-U"]
      ++ (if pkg.develop then ["-e"] else []) ++ [req]) }

/-! ## Artifact fetch and cache (executor.py lines 380-435) -/

/-- A resolved download link. -/
structure Link where
  url : String
  filename : String
  isWheel : Bool
deriving DecidableEq

/-- External collaborators of `_download` and `_install`: the chooser's link,
the response body and `content-length` header, the hash function of
`FileDependency` (poetry-core, outside this file; per the spec it is the
hex-encoded SHA-256 of the file contents), the chef's output path and bytes,
and whether the pip install invocation raises. -/
structure DlEnv where
  link : Link
  body : Bytes
  contentLength : Option Nat
  sha256hex : Bytes → String
  preparePath : String → String
  prepareBytes : Bytes → Bytes
  pipRaises : Bool

/-- Mutable state threaded through `_download`: the on-disk files, the number
of network downloads performed, and the number of chef invocations. -/
structure DlState where
  fs : List (String × Bytes)
  networkRequests : Nat
  chefCalls : Nat
deriving DecidableEq

/-- The artifact cache root `Path(CACHE_DIR) / "artifacts"` (line 48). -/
def cacheRoot : String := "CACHE_DIR/artifacts"

/-- The cache file path `cache_dir / package.name / link.filename`. -/
def cachePath (pkg : Package) (link : Link) : String :=
  cacheRoot ++ "/" ++ pkg.name ++ "/" ++ link.filename

/-- Embeds the download loop (lines 406-423): iterate over the response
chunks, stop at an empty chunk, accumulate the bytes written to the cache
file, and emit a percentage rewrite per chunk when the console supports ANSI
or the run is in debug mode and the response declared a total size.  The
percentage is `int(math.floor(done / int(wheel_size) * 100))`, i.e. floor
division on naturals. -/
def dlLoop (cfg : Config) (lines : List (Nat × Nat)) (op : Operation) (msg : String)
    (size : Option Nat) (done : Nat) : List Bytes → Bytes × List Effect
  | [] => ([], [])
  | c :: cs =>
    if c.isEmpty then ([], [])
    else
      let done2 := done + c.length
      let fx :=
        if cfg.supportsAnsi || cfg.isDebug then
          match size with
          | some n =>
            writeEffects lines op (msg ++ " <c2>" ++ toString (done2 * 100 / n) ++ "%</c2>")
          | none => []
        else []
      let r := dlLoop cfg lines op msg size done2 cs
      (c ++ r.1, fx ++ r.2)

/-- Result of the fetch steps before hash verification. -/
structure CoreResult where
  path : String
  state : DlState
  fx : List Effect
deriving DecidableEq

/-- Embeds lines 380-426 of `_download`: ensure the per-package cache
directory, resolve the link, and if the artifact file does not exist, perform
one streaming network download with read chunk size 4096 into the cache file
(reporting progress), then pass a non-wheel archive to the chef.  A cached
artifact is returned as is, with no network request. -/
def downloadCore (cfg : Config) (env : DlEnv) (lines : List (Nat × Nat)) (op : Operation)
    (st : DlState) : CoreResult :=
  let pkg := op.package
  let fx0 := [Effect.mut ("mkdir -p " ++ cacheRoot ++ "/" ++ pkg.name)]
  let archive := cachePath pkg env.link
  if (st.fs.lookup archive).isSome then
    { path := archive, state := st, fx := fx0 }
  else
    let msg := downloadingText op
    let fx1 :=
      if !cfg.supportsAnsi || cfg.isDebug then [Effect.writeLine msg]
      else
        match env.contentLength with
        | some _ => writeEffects lines op (msg ++ " <c2>0%</c2>")
        | none => []
    let r := dlLoop cfg lines op msg env.contentLength 0 (chunked env.body 4096)
    let st1 : DlState :=
      { st with fs := (archive, r.1) :: st.fs, networkRequests := st.networkRequests + 1 }
    if env.link.isWheel then
      { path := archive, state := st1, fx := fx0 ++ fx1 ++ r.2 }
    else
      let p := env.preparePath archive
      let st2 : DlState :=
        { fs := (p, env.prepareBytes r.1) :: st1.fs
          networkRequests := st1.networkRequests
          chefCalls := st1.chefCalls + 1 }
      { path := p, state := st2, fx := fx0 ++ fx1 ++ r.2 }

/-- The declared hash set `{f["hash"] for f in package.files}` (line 430). -/
def hashesOf (pkg : Package) : List String :=
  pkg.files.map (fun f => f.hash)

/-- Result of one `_download` call: the archive path or the integrity error,
the final state, the emitted effects, and the hash that was computed and
checked (ghost output; `none` when no hash verification ran at all). -/
structure FetchResult where
  result : Except String String
  state : DlState
  fx : List Effect
  checkedHash : Option String
deriving DecidableEq

/-- Embeds `_download` (lines 380-435): fetch via `downloadCore`, then, only
when `package.files` is non-empty, compute
`"sha256:" + FileDependency(...).hash()` of the archive file on disk and
raise unless it is among the declared hashes.  The error text of line 432 is
modelled up to the `str(package)` display form. -/
def download (cfg : Config) (env : DlEnv) (lines : List (Nat × Nat)) (op : Operation)
    (st : DlState) : FetchResult :=
  let r := downloadCore cfg env lines op st
  if op.package.files.isEmpty then
    { result := .ok r.path, state := r.state, fx := r.fx, checkedHash := none }
  else
    let h := "sha256:" ++ env.sha256hex ((r.state.fs.lookup r.path).getD [])
    if (hashesOf op.package).contains h then
      { result := .ok r.path, state := r.state, fx := r.fx, checkedHash := some h }
    else
      { result := .error ("Invalid hash for " ++ op.package.name ++ " using archive "
          ++ env.link.filename)
        state := r.state, fx := r.fx, checkedHash := some h }

/-- The archive contents `_download` would hash: the bytes on disk at the
path it returns. -/
def downloadedContent (cfg : Config) (env : DlEnv) (lines : List (Nat × Nat))
    (op : Operation) (st : DlState) : Bytes :=
  (((downloadCore cfg env lines op st).state.fs.lookup
      (downloadCore cfg env lines op st).path).getD [])

/-- Result of the registry branch of `_install`. -/
structure InstallResult where
  result : Except String Unit
  state : DlState
  fx : List Effect
  pipCalls : List (List String)
deriving DecidableEq

/-- Embeds the registry branch of `_install` (lines 246-257), reached when
`source_type` is neither `"directory"` nor `"git"`: download the archive,
rewrite the line to "Installing...", then invoke pip with
`install --no-deps [-U] <archive>` (`-U` inserted for updates, line 255).
If `_download` raises, the error propagates and pip is never invoked. -/
def installRegistry (cfg : Config) (env : DlEnv) (lines : List (Nat × Nat)) (op : Operation)
    (st : DlState) : InstallResult :=
  let d := download cfg env lines op st
  match d.result with
  | .error e => { result := .error e, state := d.state, fx := d.fx, pipCalls := [] }
  | .ok archive =>
    let args := if decide (op.jobType = JobType.update)
      then ["install", "--no-deps", "-U", archive]
      else ["install", "--no-deps", archive]
    { result := if env.pipRaises then .error "pip raised" else .ok ()
      state := d.state
      fx := d.fx ++ writeEffects lines op (installingText op)
      pipCalls := [runArgs args] }

/-! ## Spec-side predicates used to state and refute the grouping claim -/

/-- A group is non-empty and all its operations share one priority. -/
def groupConst : List Operation → Bool
  | [] => false
  | o :: t => t.all (fun x => decide (x.priority = o.priority))

/-- Every group is non-empty with a single priority. -/
def groupsConst (gss : List (List Operation)) : Bool :=
  gss.all groupConst

/-- Priority of the first operation of a group. -/
def headPrio : List Operation → Option Int
  | [] => none
  | o :: _ => some o.priority

/-- Adjacent groups carry different priorities (run maximality). -/
def adjDiff : List (List Operation) → Bool
  | [] => true
  | [_] => true
  | g1 :: g2 :: t =>
    (match headPrio g1, headPrio g2 with
     | some a, some b => a != b
     | _, _ => false) && adjDiff (g2 :: t)

/-- Group priorities are strictly descending (the order the claim requires). -/
def headsDesc : List (List Operation) → Bool
  | [] => true
  | [_] => true
  | g1 :: g2 :: t =>
    (match headPrio g1, headPrio g2 with
     | some a, some b => decide (b < a)
     | _, _ => false) && headsDesc (g2 :: t)

/-- The input sequence is sorted by non-increasing priority. -/
def prioSorted : List Operation → Bool
  | [] => true
  | [_] => true
  | a :: b :: t => decide (b.priority ≤ a.priority) && prioSorted (b :: t)

/-- Number of non-skipped operations of a batch. -/
def nonSkippedCount (ops : List Operation) : Nat :=
  (ops.filter (fun o => !o.skipped)).length

/-- True when an effect list contains no filesystem or process mutation. -/
def noMutation (fx : List Effect) : Bool :=
  fx.all (fun e => !isMutation e)

/-- The row map `buildLines` produces: each operation id paired with its
0-based position, starting at `base`. -/
def rowsFrom (base : Nat) : List Operation → List (Nat × Nat)
  | [] => []
  | op :: t => (op.opId, base) :: rowsFrom (base + 1) t

/-! ## Concrete instances used by witnesses and counterexamples -/

/-- A registry package with no declared files. -/
def regPkg (nm : String) : Package :=
  { name := nm, version := "1.0", sourceType := "", sourceUrl := "", sourceReference := "",
    rootDir := none, develop := false, files := [] }

/-- A registry package declaring one expected hash. -/
def hashedPkg : Package :=
  { regPkg "c" with files := [{ file := "c-1.0.whl", hash := "sha256:abcd" }] }

/-- A git-sourced package. -/
def gitPkg : Package :=
  { regPkg "g" with
    sourceType := "git"
    sourceUrl := "https://example.org/g.git"
    sourceReference := "main" }

/-- A directory-sourced package in develop mode. -/
def devPkg : Package :=
  { regPkg "d" with sourceType := "directory", sourceUrl := "pkgs/d", develop := true }

/-- Install operation with priority 0. -/
def opInstallP0 : Operation :=
  { opId := 1, jobType := .install, priority := 0, skipped := false, skipReason := "",
    package := regPkg "a", initialPackage := regPkg "a", targetPackage := regPkg "a" }

/-- Install operation with priority 1, listed after `opInstallP0`. -/
def opInstallP1 : Operation :=
  { opId := 2, jobType := .install, priority := 1, skipped := false, skipReason := "",
    package := regPkg "a2", initialPackage := regPkg "a2", targetPackage := regPkg "a2" }

/-- Uninstall operation for a registry package. -/
def opUninstallB : Operation :=
  { opId := 3, jobType := .uninstall, priority := 0, skipped := false, skipReason := "",
    package := regPkg "b", initialPackage := regPkg "b", targetPackage := regPkg "b" }

/-- A skipped install operation. -/
def opSkip7 : Operation :=
  { opId := 7, jobType := .install, priority := 0, skipped := true,
    skipReason := "Already installed", package := regPkg "s", initialPackage := regPkg "s",
    targetPackage := regPkg "s" }

/-- Install operation carrying the hash-declaring package. -/
def opInstallC : Operation :=
  { opId := 4, jobType := .install, priority := 0, skipped := false, skipReason := "",
    package := hashedPkg, initialPackage := hashedPkg, targetPackage := hashedPkg }

/-- Default configuration of a fresh executor (lines 42-44) with an
ANSI-capable console. -/
def cfgDefault : Config :=
  { enabled := true, dryRun := false, verbose := false, supportsAnsi := true, isDebug := false }

/-- Dry-run configuration. -/
def cfgDry : Config :=
  { cfgDefault with dryRun := true }

/-- Enabled configuration on a console without ANSI cursor support. -/
def cfgNoAnsi : Config :=
  { cfgDefault with supportsAnsi := false }

/-- Inner action that does nothing and never raises; adequate in modes where
the dispatcher never reaches the inner action. -/
def innerNone : Inner :=
  { raises := fun _ => false, fx := fun _ _ => [] }

/-- Uninstall environment whose pip action succeeds. -/
def rmEnvOk : RmEnv :=
  { srcDirExists := false, pipUninstall := .ok () }

/-- Uninstall environment whose pip action reports the package absent. -/
def rmEnvAbsent : RmEnv :=
  { srcDirExists := false,
    pipUninstall := .error (.calledProcess "Cannot uninstall: b is not installed.") }

/-- Download environment for a small wheel. -/
def dlEnvW : DlEnv :=
  { link := { url := "https://files.example.org/b-1.0.whl", filename := "b-1.0.whl",
              isWheel := true }
    body := [10, 20, 30]
    contentLength := some 3
    sha256hex := fun _ => "abcd"
    preparePath := fun s => s ++ ".prepared"
    prepareBytes := fun b => b
    pipRaises := false }

/-- Empty download state: nothing cached yet. -/
def stEmpty : DlState :=
  { fs := [], networkRequests := 0, chefCalls := 0 }

/-- Directory-install environment that triggers script synthesis. -/
def dirEnvSynth : DirEnv :=
  { hasPyproject := true, hasPoetryTool := true, setupExists := false, runRaises := true }

/-- Directory-install environment with a pre-existing `setup.py`. -/
def dirEnvSetup : DirEnv :=
  { hasPyproject := true, hasPoetryTool := true, setupExists := true, runRaises := true }

/-! ## Lemmas about `chunked` -/

theorem chunkedGo_flatten (n : Nat) (hn : n ≠ 0) :
    ∀ (fuel : Nat) (l : List α), l.length ≤ fuel → (chunkedGo n fuel l).flatten = l := by
  intro fuel
  induction fuel with
  | zero =>
    intro l hl
    cases l with
    | nil => rfl
    | cons x xs => simp at hl
  | succ f ih =>
    intro l hl
    cases l with
    | nil => rfl
    | cons x xs =>
      show (take n (x :: xs) :: chunkedGo n f ((x :: xs).drop n)).flatten = x :: xs
      rw [List.flatten_cons, ih ((x :: xs).drop n)]
      · exact List.take_append_drop n (x :: xs)
      · have hpos : 0 < n := Nat.pos_of_ne_zero hn
        rw [List.length_drop]
        simp only [List.length_cons] at hl ⊢
        omega

theorem chunked_flatten (l : List α) (n : Nat) (hn : n ≠ 0) :
    (chunked l n).flatten = l := by
  unfold chunked
  rw [if_neg hn]
  exact chunkedGo_flatten n hn l.length l le_rfl

theorem chunkedGo_mem (n : Nat) (hn : n ≠ 0) :
    ∀ (fuel : Nat) (l : List α), l.length ≤ fuel →
      ∀ c ∈ chunkedGo n fuel l, c.length ≤ n ∧ c ≠ [] := by
  intro fuel
  induction fuel with
  | zero =>
    intro l hl c hc
    cases l with
    | nil => simp [chunkedGo] at hc
    | cons x xs => simp at hl
  | succ f ih =>
    intro l hl c hc
    cases l with
    | nil => simp [chunkedGo] at hc
    | cons x xs =>
      have hc2 : c ∈ take n (x :: xs) :: chunkedGo n f ((x :: xs).drop n) := hc
      rcases List.mem_cons.mp hc2 with h | h
      · subst h
        constructor
        · show ((x :: xs).take n).length ≤ n
          rw [List.length_take]
          exact min_le_left _ _
        · cases n with
          | zero => exact absurd rfl hn
          | succ m => simp [take]
      · refine ih ((x :: xs).drop n) ?_ c h
        have hpos : 0 < n := Nat.pos_of_ne_zero hn
        rw [List.length_drop]
        simp only [List.length_cons] at hl ⊢
        omega

theorem chunked_mem (l : List α) (n : Nat) (hn : n ≠ 0) :
    ∀ c ∈ chunked l n, c.length ≤ n ∧ c ≠ [] := by
  intro c hc
  unfold chunked at hc
  rw [if_neg hn] at hc
  exact chunkedGo_mem n hn l.length l le_rfl c hc

/-! ## Lemmas about `spanKey` and `groupbyKey` -/

theorem spanKey_append (key : α → Int) (k : Int) :
    ∀ l : List α, (spanKey key k l).1 ++ (spanKey key k l).2 = l := by
  intro l
  induction l with
  | nil => rfl
  | cons x xs ih =>
    by_cases h : key x = k
    · simp only [spanKey, if_pos h, List.cons_append]
      rw [ih]
    · simp only [spanKey, if_neg h, List.nil_append]

theorem spanKey_len2 (key : α → Int) (k : Int) :
    ∀ l : List α, (spanKey key k l).2.length ≤ l.length := by
  intro l
  induction l with
  | nil => exact le_rfl
  | cons x xs ih =>
    by_cases h : key x = k
    · simp only [spanKey, if_pos h]
      exact le_trans ih (Nat.le_succ _)
    · simp only [spanKey, if_neg h]
      exact le_rfl

theorem spanKey_mem1 (key : α → Int) (k : Int) :
    ∀ l : List α, ∀ x ∈ (spanKey key k l).1, key x = k := by
  intro l
  induction l with
  | nil => intro x hx; simp [spanKey] at hx
  | cons y ys ih =>
    intro x hx
    by_cases h : key y = k
    · simp only [spanKey, if_pos h] at hx
      rcases List.mem_cons.mp hx with h2 | h2
      · subst h2; exact h
      · exact ih x h2
    · simp only [spanKey, if_neg h] at hx
      simp at hx

theorem spanKey_head2 (key : α → Int) (k : Int) :
    ∀ (l : List α) (z : α) (zs : List α), (spanKey key k l).2 = z :: zs → key z ≠ k := by
  intro l
  induction l with
  | nil => intro z zs h; simp [spanKey] at h
  | cons y ys ih =>
    intro z zs h
    by_cases hk : key y = k
    · simp only [spanKey, if_pos hk] at h
      exact ih z zs h
    · simp only [spanKey, if_neg hk] at h
      cases h
      exact hk

theorem spanKey_mem2 (key : α → Int) (k : Int) (l : List α) :
    ∀ x ∈ (spanKey key k l).2, x ∈ l := by
  intro x hx
  have := spanKey_append key k l
  rw [← this]
  exact List.mem_append_right _ hx

theorem groupbyGo_flatten (key : α → Int) :
    ∀ (fuel : Nat) (l : List α), l.length ≤ fuel → (groupbyGo key fuel l).flatten = l := by
  intro fuel
  induction fuel with
  | zero =>
    intro l hl
    cases l with
    | nil => rfl
    | cons x xs => simp at hl
  | succ f ih =>
    intro l hl
    cases l with
    | nil => rfl
    | cons x xs =>
      show ((x :: (spanKey key (key x) xs).1) ::
        groupbyGo key f (spanKey key (key x) xs).2).flatten = x :: xs
      rw [List.flatten_cons, ih (spanKey key (key x) xs).2]
      · rw [List.cons_append, spanKey_append]
      · exact le_trans (spanKey_len2 key (key x) xs) (by simpa using hl)

theorem groupbyKey_flatten (key : α → Int) (l : List α) :
    (groupbyKey key l).flatten = l :=
  groupbyGo_flatten key l.length l le_rfl

theorem groupbyGo_cons_head (key : α → Int) (f : Nat) (z : α) (zs : List α)
    (h : zs.length < f) :
    ∃ t rest, groupbyGo key f (z :: zs) = (z :: t) :: rest := by
  cases f with
  | zero => omega
  | succ f2 => exact ⟨_, _, rfl⟩

theorem groupbyGo_const :
    ∀ (fuel : Nat) (l : List Operation), l.length ≤ fuel →
      groupsConst (groupbyGo (fun o : Operation => -o.priority) fuel l) = true := by
  intro fuel
  induction fuel with
  | zero =>
    intro l hl
    cases l with
    | nil => rfl
    | cons x xs => simp at hl
  | succ f ih =>
    intro l hl
    cases l with
    | nil => rfl
    | cons x xs =>
      simp only [groupbyGo]
      have h1 : groupConst
          (x :: (spanKey (fun o : Operation => -o.priority) (-x.priority) xs).1) = true := by
        simp only [groupConst, List.all_eq_true, decide_eq_true_eq]
        intro y hy
        have hk := spanKey_mem1 (fun o : Operation => -o.priority) (-x.priority) xs y hy
        exact neg_inj.mp hk
      have h2 := ih (spanKey (fun o : Operation => -o.priority) (-x.priority) xs).2
        (le_trans (spanKey_len2 _ _ _) (by simpa using hl))
      simp only [groupsConst, List.all_cons, h1, Bool.true_and]
      exact h2

theorem groupbyGo_adjDiff :
    ∀ (fuel : Nat) (l : List Operation), l.length ≤ fuel →
      adjDiff (groupbyGo (fun o : Operation => -o.priority) fuel l) = true := by
  intro fuel
  induction fuel with
  | zero =>
    intro l hl
    cases l with
    | nil => rfl
    | cons x xs => simp at hl
  | succ f ih =>
    intro l hl
    cases l with
    | nil => rfl
    | cons x xs =>
      have hxs : xs.length ≤ f := by simpa using hl
      simp only [groupbyGo]
      cases h2 : (spanKey (fun o : Operation => -o.priority) (-x.priority) xs).2 with
      | nil =>
        simp [adjDiff, groupbyGo]
      | cons z zs =>
        have hlen : (z :: zs).length ≤ f := by
          rw [← h2]
          exact le_trans (spanKey_len2 _ _ _) hxs
        have hzs : zs.length < f := by simpa using hlen
        obtain ⟨t, rest, heq⟩ := groupbyGo_cons_head (fun o : Operation => -o.priority) f z zs hzs
        have hih := ih (z :: zs) hlen
        rw [heq] at hih
        rw [heq]
        have hk := spanKey_head2 (fun o : Operation => -o.priority) (-x.priority) xs z zs h2
        have hne : x.priority ≠ z.priority := by
          intro hc
          exact hk (by rw [hc])
        simp only [adjDiff, headPrio, hih, Bool.and_true]
        exact bne_iff_ne.mpr hne

theorem prioSorted_tail (x : Operation) (l : List Operation)
    (h : prioSorted (x :: l) = true) : prioSorted l = true := by
  cases l with
  | nil => rfl
  | cons b t =>
    simp only [prioSorted, Bool.and_eq_true] at h
    exact h.2

theorem prioSorted_head_ge (x : Operation) :
    ∀ (l : List Operation), prioSorted (x :: l) = true →
      ∀ y ∈ l, y.priority ≤ x.priority := by
  intro l
  induction l generalizing x with
  | nil =>
    intro _ y hy
    simp at hy
  | cons b t ih =>
    intro h y hy
    have hxb : b.priority ≤ x.priority := by
      simp only [prioSorted, Bool.and_eq_true, decide_eq_true_eq] at h
      exact h.1
    rcases List.mem_cons.mp hy with h2 | h2
    · subst h2; exact hxb
    · exact le_trans (ih b (prioSorted_tail x (b :: t) h) y h2) hxb

theorem spanKey_sorted2 (k : Int) :
    ∀ l : List Operation, prioSorted l = true →
      prioSorted (spanKey (fun o : Operation => -o.priority) k l).2 = true := by
  intro l
  induction l with
  | nil => intro _; rfl
  | cons x xs ih =>
    intro h
    by_cases hk : (fun o : Operation => -o.priority) x = k
    · simp only [spanKey, if_pos hk]
      exact ih (prioSorted_tail x xs h)
    · simp only [spanKey, if_neg hk]
      exact h

theorem groupbyGo_headsDesc :
    ∀ (fuel : Nat) (l : List Operation), l.length ≤ fuel → prioSorted l = true →
      headsDesc (groupbyGo (fun o : Operation => -o.priority) fuel l) = true := by
  intro fuel
  induction fuel with
  | zero =>
    intro l hl _
    cases l with
    | nil => rfl
    | cons x xs => simp at hl
  | succ f ih =>
    intro l hl hsort
    cases l with
    | nil => rfl
    | cons x xs =>
      have hxs : xs.length ≤ f := by simpa using hl
      simp only [groupbyGo]
      cases h2 : (spanKey (fun o : Operation => -o.priority) (-x.priority) xs).2 with
      | nil =>
        simp [headsDesc, groupbyGo]
      | cons z zs =>
        have hlen : (z :: zs).length ≤ f := by
          rw [← h2]
          exact le_trans (spanKey_len2 _ _ _) hxs
        have hzs : zs.length < f := by simpa using hlen
        obtain ⟨t, rest, heq⟩ := groupbyGo_cons_head (fun o : Operation => -o.priority) f z zs hzs
        have hsort2 : prioSorted (z :: zs) = true := by
          rw [← h2]
          exact spanKey_sorted2 (-x.priority) xs (prioSorted_tail x xs hsort)
        have hih := ih (z :: zs) hlen hsort2
        rw [heq] at hih
        rw [heq]
        have hk := spanKey_head2 (fun o : Operation => -o.priority) (-x.priority) xs z zs h2
        have hne : z.priority ≠ x.priority := by
          intro hc
          exact hk (by rw [← hc])
        have hz : z ∈ xs := by
          refine spanKey_mem2 (fun o : Operation => -o.priority) (-x.priority) xs z ?_
          rw [h2]
          exact List.mem_cons_self z zs
        have hle : z.priority ≤ x.priority := prioSorted_head_ge x xs hsort z hz
        have hlt : z.priority < x.priority := lt_of_le_of_ne hle hne
        simp only [headsDesc, headPrio, hih, Bool.and_true, decide_eq_true_eq]
        exact hlt

/-- C1: the scheduler partitions the batch with `itertools.groupby` on the
negated priority and chunks each group by 5.  Because `groupby` only merges
consecutive equal keys and performs no sorting, the groups are the maximal
runs of consecutive equal-priority operations in input order — they are in
descending priority order only when the input is already sorted by descending
priority (amended claim).  Chunks always have size at most 5 and, in order,
partition their group. -/
theorem c1_grouping_and_chunking (ops : List Operation) :
    (executeGroups ops).flatten = ops
  ∧ groupsConst (executeGroups ops) = true
  ∧ adjDiff (executeGroups ops) = true
  ∧ (prioSorted ops = true → headsDesc (executeGroups ops) = true)
  ∧ ∀ g : List Operation, (chunked g 5).flatten = g
      ∧ ∀ c ∈ chunked g 5, c.length ≤ 5 ∧ c ≠ [] := by
  refine ⟨groupbyKey_flatten (fun o : Operation => -o.priority) ops,
    groupbyGo_const ops.length ops le_rfl,
    groupbyGo_adjDiff ops.length ops le_rfl,
    fun hs => groupbyGo_headsDesc ops.length ops le_rfl hs,
    fun g => ⟨chunked_flatten g 5 (by decide), chunked_mem g 5 (by decide)⟩⟩

/-- C1 witness: on a batch already sorted by descending priority the groups
come out in strictly descending priority order. -/
theorem c1_grouping_witness :
    prioSorted [opInstallP1, opInstallP0] = true
  ∧ headsDesc (executeGroups [opInstallP1, opInstallP0]) = true :=
  ⟨by decide,
   (c1_grouping_and_chunking [opInstallP1, opInstallP0]).2.2.2.1 (by decide)⟩

/-- C1 counterexample: on the unsorted batch `[priority 0, priority 1]` the
groups come out in ascending, not descending, priority order, refuting the
claim for inputs not already sorted by priority. -/
theorem c1_counterexample :
    executeGroups [opInstallP0, opInstallP1] = [[opInstallP0], [opInstallP1]]
  ∧ headsDesc (executeGroups [opInstallP0, opInstallP1]) = false
  ∧ opInstallP0.priority < opInstallP1.priority := by
  decide

/-! ## Lemmas about the dispatcher and the executed-operations counter -/

theorem executeOperation_incr (cfg : Config) (inner : Inner) (lines : List (Nat × Nat))
    (op : Operation) :
    (executeOperation cfg inner lines op).2.1
      = if !op.skipped && cfg.enabled && !cfg.dryRun && !inner.raises op then 1 else 0 := by
  cases hsk : op.skipped <;> cases hen : cfg.enabled <;> cases hdr : cfg.dryRun <;>
    cases hrr : inner.raises op <;> cases hv : cfg.verbose <;>
      simp [executeOperation, hsk, hen, hdr, hrr, hv]

theorem executeOperation_raised (cfg : Config) (inner : Inner) (lines : List (Nat × Nat))
    (op : Operation) :
    (executeOperation cfg inner lines op).2.2
      = (!op.skipped && cfg.enabled && !cfg.dryRun && inner.raises op) := by
  cases hsk : op.skipped <;> cases hen : cfg.enabled <;> cases hdr : cfg.dryRun <;>
    cases hrr : inner.raises op <;> cases hv : cfg.verbose <;>
      simp [executeOperation, hsk, hen, hdr, hrr, hv]

theorem nonSkippedCount_cons (x : Operation) (t : List Operation) :
    nonSkippedCount (x :: t) = (if x.skipped then 0 else 1) + nonSkippedCount t := by
  unfold nonSkippedCount
  cases hsk : x.skipped <;> simp [List.filter_cons, hsk, Nat.add_comm]

theorem sum_map_le_nonSkipped (f : Operation → Nat) :
    ∀ l : List Operation, (∀ op ∈ l, f op ≤ if op.skipped then 0 else 1) →
      (l.map f).sum ≤ nonSkippedCount l := by
  intro l
  induction l with
  | nil => intro _; simp [nonSkippedCount]
  | cons x t ih =>
    intro h
    have hx := h x (List.mem_cons_self x t)
    have ht := ih fun op hop => h op (List.mem_cons_of_mem x hop)
    rw [nonSkippedCount_cons]
    simp only [List.map_cons, List.sum_cons]
    cases hsk : x.skipped <;> simp only [hsk, if_true, if_false] at hx ⊢ <;> omega

theorem sum_map_eq_nonSkipped (f : Operation → Nat) :
    ∀ l : List Operation, (∀ op ∈ l, f op = if op.skipped then 0 else 1) →
      (l.map f).sum = nonSkippedCount l := by
  intro l
  induction l with
  | nil => intro _; simp [nonSkippedCount]
  | cons x t ih =>
    intro h
    have hx := h x (List.mem_cons_self x t)
    have ht := ih fun op hop => h op (List.mem_cons_of_mem x hop)
    rw [nonSkippedCount_cons]
    simp only [List.map_cons, List.sum_cons]
    cases hsk : x.skipped <;> simp only [hsk, if_true, if_false] at hx ⊢ <;> omega

theorem runChunk_incr (cfg : Config) (inner : Inner) (chunk : List Operation) :
    (runChunk cfg inner chunk).2.1
      = (chunk.map
          (fun op => (executeOperation cfg inner (chunkSetup chunk).1 op).2.1)).sum := by
  show ((chunk.map (executeOperation cfg inner (chunkSetup chunk).1)).map
    (fun r => r.2.1)).sum = _
  rw [List.map_map]
  rfl

theorem runChunk_anyRaised (cfg : Config) (inner : Inner) (chunk : List Operation) :
    (runChunk cfg inner chunk).2.2
      = (chunk.map (executeOperation cfg inner (chunkSetup chunk).1)).any
          (fun r => r.2.2) :=
  rfl

theorem runChunk_le (cfg : Config) (inner : Inner) (chunk : List Operation) :
    (runChunk cfg inner chunk).2.1 ≤ nonSkippedCount chunk := by
  rw [runChunk_incr]
  apply sum_map_le_nonSkipped
  intro op hop
  rw [executeOperation_incr]
  cases hsk : op.skipped
  · split <;> simp
  · simp

theorem runChunks_cons (cfg : Config) (inner : Inner) (c : List Operation)
    (t : List (List Operation)) :
    runChunks cfg inner (c :: t)
      = if (runChunk cfg inner c).2.2 then runChunk cfg inner c
        else ((runChunk cfg inner c).1 ++ (runChunks cfg inner t).1,
              (runChunk cfg inner c).2.1 + (runChunks cfg inner t).2.1,
              (runChunks cfg inner t).2.2) :=
  rfl

theorem runChunks_le (cfg : Config) (inner : Inner) :
    ∀ cs : List (List Operation),
      (runChunks cfg inner cs).2.1 ≤ (cs.map nonSkippedCount).sum := by
  intro cs
  induction cs with
  | nil => simp [runChunks]
  | cons c t ih =>
    rw [runChunks_cons]
    simp only [List.map_cons, List.sum_cons]
    split
    · exact le_trans (runChunk_le cfg inner c) (Nat.le_add_right _ _)
    · exact Nat.add_le_add (runChunk_le cfg inner c) ih

theorem sum_nonSkipped_flatten :
    ∀ cs : List (List Operation), (cs.map nonSkippedCount).sum = nonSkippedCount cs.flatten := by
  intro cs
  induction cs with
  | nil => rfl
  | cons c t ih =>
    simp only [List.map_cons, List.sum_cons, List.flatten_cons]
    unfold nonSkippedCount at ih ⊢
    rw [List.filter_append, List.length_append, ih]

theorem allChunks_flatten (ops : List Operation) : (allChunks ops).flatten = ops := by
  unfold allChunks
  have aux : ∀ gs : List (List Operation),
      ((gs.map (fun g => chunked g 5)).flatten).flatten = gs.flatten := by
    intro gs
    induction gs with
    | nil => rfl
    | cons g t ih =>
      simp only [List.map_cons, List.flatten_cons, List.flatten_append, ih]
      rw [chunked_flatten g 5 (by decide)]
  rw [aux]
  exact groupbyKey_flatten (fun o : Operation => -o.priority) ops

theorem runChunk_exact (cfg : Config) (inner : Inner) (chunk : List Operation)
    (hE : cfg.enabled = true) (hD : cfg.dryRun = false)
    (hR : ∀ op ∈ chunk, inner.raises op = false) :
    (runChunk cfg inner chunk).2.1 = nonSkippedCount chunk
  ∧ (runChunk cfg inner chunk).2.2 = false := by
  constructor
  · rw [runChunk_incr]
    apply sum_map_eq_nonSkipped
    intro op hop
    rw [executeOperation_incr, hE, hD, hR op hop]
    cases hsk : op.skipped <;> simp [hsk]
  · rw [runChunk_anyRaised]
    rw [List.any_eq_false]
    intro r hr
    obtain ⟨op, hop, hfr⟩ := List.mem_map.mp hr
    rw [← hfr]
    rw [executeOperation_raised, hR op hop]
    simp

theorem runChunks_exact (cfg : Config) (inner : Inner)
    (hE : cfg.enabled = true) (hD : cfg.dryRun = false) :
    ∀ cs : List (List Operation), (∀ c ∈ cs, ∀ op ∈ c, inner.raises op = false) →
      (runChunks cfg inner cs).2.1 = (cs.map nonSkippedCount).sum := by
  intro cs
  induction cs with
  | nil => intro _; rfl
  | cons c t ih =>
    intro h
    have hc := runChunk_exact cfg inner c hE hD (h c (List.mem_cons_self c t))
    rw [runChunks_cons, hc.2, if_neg Bool.false_ne_true]
    simp only [List.map_cons, List.sum_cons]
    rw [hc.1, ih fun g hg op hop => h g (List.mem_cons_of_mem c hg) op hop]

theorem executeOperation_off_zero (cfg : Config) (inner : Inner) (lines : List (Nat × Nat))
    (op : Operation) (h : cfg.enabled = false ∨ cfg.dryRun = true) :
    (executeOperation cfg inner lines op).2.1 = 0 := by
  rw [executeOperation_incr]
  rcases h with h | h <;> simp [h]

theorem sum_map_zero (f : Operation → Nat) :
    ∀ l : List Operation, (∀ op ∈ l, f op = 0) → (l.map f).sum = 0 := by
  intro l
  induction l with
  | nil => intro _; rfl
  | cons x t ih =>
    intro h
    simp only [List.map_cons, List.sum_cons]
    rw [h x (List.mem_cons_self x t), ih fun op hop => h op (List.mem_cons_of_mem x hop)]

theorem runChunks_off_zero (cfg : Config) (inner : Inner)
    (h : cfg.enabled = false ∨ cfg.dryRun = true) :
    ∀ cs : List (List Operation), (runChunks cfg inner cs).2.1 = 0 := by
  have hchunk : ∀ c : List Operation, (runChunk cfg inner c).2.1 = 0 := by
    intro c
    rw [runChunk_incr]
    exact sum_map_zero _ c fun op _ => executeOperation_off_zero cfg inner (chunkSetup c).1 op h
  intro cs
  induction cs with
  | nil => rfl
  | cons c t ih =>
    rw [runChunks_cons]
    split
    · exact hchunk c
    · simp only []
      rw [hchunk c, ih]

/-- C2 (amended): `execute` raises on unrecovered failure but otherwise
returns `None`, not the executed count (the function body has no `return`
statement); the executed-operations counter itself behaves as claimed: it
never exceeds the number of non-skipped operations, equals it exactly when
the executor is enabled, not in dry-run mode, no operation raises and the
summary does not raise, is never incremented in disabled or dry-run mode,
and raising operations never increment it.  A non-empty enabled-or-dry-run
batch containing a skipped operation never reaches dispatch: it raises
`AttributeError` in `_display_summary` (undefined `is_verbose`, line 214)
with the counter left at 0. -/
theorem c2_executed_counter (cfg : Config) (inner : Inner) (ops : List Operation) :
    (executeTrace cfg inner ops).ret = none
  ∧ (executeTrace cfg inner ops).executedOperations ≤ nonSkippedCount ops
  ∧ (cfg.enabled = true → cfg.dryRun = false →
      (∀ op ∈ ops, inner.raises op = false) →
      summaryRaises cfg ops = false →
      (executeTrace cfg inner ops).executedOperations = nonSkippedCount ops)
  ∧ ((cfg.enabled = false ∨ cfg.dryRun = true) →
      (executeTrace cfg inner ops).executedOperations = 0)
  ∧ (summaryRaises cfg ops = true →
      (executeTrace cfg inner ops).executedOperations = 0
      ∧ (executeTrace cfg inner ops).raised = true) := by
  by_cases hsr : summaryRaises cfg ops = true
  · have htr : executeTrace cfg inner ops
        = { fx := summaryFx cfg ops, executedOperations := 0, raised := true,
            ret := none } := by
      unfold executeTrace
      rw [if_pos hsr]
    rw [htr]
    refine ⟨rfl, Nat.zero_le _, ?_, fun _ => rfl, fun _ => ⟨rfl, rfl⟩⟩
    intro _ _ _ hs
    rw [hs] at hsr
    exact absurd hsr Bool.false_ne_true
  · have htr : executeTrace cfg inner ops
        = { fx := summaryFx cfg ops ++ (runChunks cfg inner (allChunks ops)).1,
            executedOperations := (runChunks cfg inner (allChunks ops)).2.1,
            raised := (runChunks cfg inner (allChunks ops)).2.2, ret := none } := by
      unfold executeTrace
      rw [if_neg hsr]
    rw [htr]
    refine ⟨rfl, ?_, ?_, ?_, fun hc => absurd hc hsr⟩
    · show (runChunks cfg inner (allChunks ops)).2.1 ≤ nonSkippedCount ops
      calc (runChunks cfg inner (allChunks ops)).2.1
          ≤ ((allChunks ops).map nonSkippedCount).sum := runChunks_le cfg inner (allChunks ops)
        _ = nonSkippedCount (allChunks ops).flatten := sum_nonSkipped_flatten (allChunks ops)
        _ = nonSkippedCount ops := by rw [allChunks_flatten]
    · intro hE hD hR _
      show (runChunks cfg inner (allChunks ops)).2.1 = nonSkippedCount ops
      rw [runChunks_exact cfg inner hE hD (allChunks ops) ?_, sum_nonSkipped_flatten,
        allChunks_flatten]
      intro c hc op hop
      apply hR
      have hmem : op ∈ (allChunks ops).flatten := List.mem_flatten.mpr ⟨c, hc, hop⟩
      rwa [allChunks_flatten] at hmem
    · intro h
      exact runChunks_off_zero cfg inner h (allChunks ops)

/-- C2 witness: an enabled, non-dry-run batch of one successful uninstall
ends with the counter equal to its single non-skipped operation. -/
theorem c2_executed_counter_witness :
    cfgDefault.enabled = true ∧ cfgDefault.dryRun = false
  ∧ summaryRaises cfgDefault [opUninstallB] = false
  ∧ (executeTrace cfgDefault (uninstallInner rmEnvOk) [opUninstallB]).executedOperations
      = nonSkippedCount [opUninstallB] :=
  ⟨rfl, rfl, by decide,
   (c2_executed_counter cfgDefault (uninstallInner rmEnvOk) [opUninstallB]).2.2.1
     rfl rfl (by decide) (by decide)⟩

/-- C2 counterexample: a batch executes one operation (the counter attribute
ends at 1) yet `execute` returns `None`, not the count 1, refuting the
return-value part of the claim. -/
theorem c2_counterexample :
    (executeTrace cfgDefault (uninstallInner rmEnvOk) [opUninstallB]).executedOperations = 1
  ∧ (executeTrace cfgDefault (uninstallInner rmEnvOk) [opUninstallB]).raised = false
  ∧ (executeTrace cfgDefault (uninstallInner rmEnvOk) [opUninstallB]).ret
      ≠ some (executeTrace cfgDefault
          (uninstallInner rmEnvOk) [opUninstallB]).executedOperations := by
  decide


/-! ## Lemmas about the disabled / dry-run modes and the console effects -/

theorem executeOperation_off (cfg : Config) (inner : Inner) (lines : List (Nat × Nat))
    (op : Operation) (h : cfg.enabled = false ∨ cfg.dryRun = true) :
    executeOperation cfg inner lines op
      = if op.skipped then
          (if cfg.verbose && (cfg.enabled || cfg.dryRun)
           then ([Effect.writeLine (skipText op)], 0, false) else ([], 0, false))
        else ([Effect.writeLine (predispatchText op)], 0, false) := by
  have hcond : (!cfg.enabled || cfg.dryRun) = true := by
    rcases h with h | h <;> simp [h]
  unfold executeOperation
  cases hsk : op.skipped <;> simp [hcond]

theorem executeOperation_off_indep (cfg : Config) (i1 i2 : Inner) (lines : List (Nat × Nat))
    (op : Operation) (h : cfg.enabled = false ∨ cfg.dryRun = true) :
    executeOperation cfg i1 lines op = executeOperation cfg i2 lines op := by
  rw [executeOperation_off cfg i1 lines op h, executeOperation_off cfg i2 lines op h]

theorem runChunk_off_indep (cfg : Config) (i1 i2 : Inner) (c : List Operation)
    (h : cfg.enabled = false ∨ cfg.dryRun = true) :
    runChunk cfg i1 c = runChunk cfg i2 c := by
  have hmap : c.map (executeOperation cfg i1 (chunkSetup c).1)
      = c.map (executeOperation cfg i2 (chunkSetup c).1) :=
    List.map_congr_left fun op _ => executeOperation_off_indep cfg i1 i2 (chunkSetup c).1 op h
  show ((chunkSetup c).2
      ++ ((c.map (executeOperation cfg i1 (chunkSetup c).1)).map (fun r => r.1)).flatten,
    ((c.map (executeOperation cfg i1 (chunkSetup c).1)).map (fun r => r.2.1)).sum,
    (c.map (executeOperation cfg i1 (chunkSetup c).1)).any (fun r => r.2.2)) = _
  rw [hmap]
  rfl

theorem runChunks_off_indep (cfg : Config) (i1 i2 : Inner)
    (h : cfg.enabled = false ∨ cfg.dryRun = true) :
    ∀ cs : List (List Operation), runChunks cfg i1 cs = runChunks cfg i2 cs := by
  intro cs
  induction cs with
  | nil => rfl
  | cons c t ih =>
    rw [runChunks_cons, runChunks_cons, runChunk_off_indep cfg i1 i2 c h, ih]

theorem executeTrace_off_indep (cfg : Config) (i1 i2 : Inner) (ops : List Operation)
    (h : cfg.enabled = false ∨ cfg.dryRun = true) :
    executeTrace cfg i1 ops = executeTrace cfg i2 ops := by
  unfold executeTrace
  by_cases hsr : summaryRaises cfg ops = true
  · rw [if_pos hsr, if_pos hsr]
  · rw [if_neg hsr, if_neg hsr, runChunks_off_indep cfg i1 i2 h (allChunks ops)]

theorem append_noMut (a b : List Effect) (ha : noMutation a = true) (hb : noMutation b = true) :
    noMutation (a ++ b) = true := by
  unfold noMutation at ha hb ⊢
  rw [List.all_append, ha, hb]
  rfl

theorem flatten_noMut (ls : List (List Effect)) (h : ∀ l ∈ ls, noMutation l = true) :
    noMutation ls.flatten = true := by
  induction ls with
  | nil => rfl
  | cons a t ih =>
    rw [List.flatten_cons]
    exact append_noMut a t.flatten (h a (List.mem_cons_self a t))
      (ih fun l hl => h l (List.mem_cons_of_mem a hl))

theorem executeOperation_off_noMut (cfg : Config) (inner : Inner) (lines : List (Nat × Nat))
    (op : Operation) (h : cfg.enabled = false ∨ cfg.dryRun = true) :
    noMutation (executeOperation cfg inner lines op).1 = true := by
  rw [executeOperation_off cfg inner lines op h]
  split
  · split <;> simp [noMutation, isMutation]
  · simp [noMutation, isMutation]

theorem buildLines_noMut :
    ∀ (rest : List Operation) (m : List (Nat × Nat)) (fx : List Effect),
      noMutation fx = true → noMutation (buildLines m fx rest).2 = true := by
  intro rest
  induction rest with
  | nil => intro m fx h; exact h
  | cons op t ih =>
    intro m fx h
    unfold buildLines
    split
    · exact ih m fx h
    · exact ih _ _ (append_noMut fx _ h (by simp [noMutation, isMutation]))

theorem summaryFx_noMut (cfg : Config) (ops : List Operation) :
    noMutation (summaryFx cfg ops) = true := by
  unfold summaryFx
  split
  · split <;> simp [noMutation, isMutation]
  · split
    · split <;> simp [noMutation, isMutation]
    · rfl

theorem runChunk_off_noMut (cfg : Config) (inner : Inner) (c : List Operation)
    (h : cfg.enabled = false ∨ cfg.dryRun = true) :
    noMutation (runChunk cfg inner c).1 = true := by
  show noMutation ((chunkSetup c).2
    ++ ((c.map (executeOperation cfg inner (chunkSetup c).1)).map (fun r => r.1)).flatten) = true
  apply append_noMut
  · exact buildLines_noMut c [] [] rfl
  · apply flatten_noMut
    intro l hl
    obtain ⟨r, hr, hrl⟩ := List.mem_map.mp hl
    obtain ⟨op, hop, hor⟩ := List.mem_map.mp hr
    rw [← hrl, ← hor]
    exact executeOperation_off_noMut cfg inner (chunkSetup c).1 op h

theorem runChunks_off_noMut (cfg : Config) (inner : Inner)
    (h : cfg.enabled = false ∨ cfg.dryRun = true) :
    ∀ cs : List (List Operation), noMutation (runChunks cfg inner cs).1 = true := by
  intro cs
  induction cs with
  | nil => rfl
  | cons c t ih =>
    rw [runChunks_cons]
    split
    · exact runChunk_off_noMut cfg inner c h
    · exact append_noMut _ _ (runChunk_off_noMut cfg inner c h) ih

theorem executeTrace_off_noMut (cfg : Config) (inner : Inner) (ops : List Operation)
    (h : cfg.enabled = false ∨ cfg.dryRun = true) :
    noMutation (executeTrace cfg inner ops).fx = true := by
  unfold executeTrace
  by_cases hsr : summaryRaises cfg ops = true
  · rw [if_pos hsr]
    exact summaryFx_noMut cfg ops
  · rw [if_neg hsr]
    show noMutation (summaryFx cfg ops ++ (runChunks cfg inner (allChunks ops)).1) = true
    exact append_noMut _ _ (summaryFx_noMut cfg ops)
      (runChunks_off_noMut cfg inner h (allChunks ops))

/-- C7 (amended): while the executor is disabled or in dry-run mode, the
whole batch performs no filesystem or process mutation and its behaviour is
independent of the concrete install/uninstall actions (they are never
invoked); the dispatcher reports exactly one planned-action line for each
non-skipped operation — so counting the scheduler pre-dispatch line, a
non-skipped operation produces two reported lines, not exactly one — and for
a skipped operation one skip line when verbose mode is on together with
enabled-or-dry-run, otherwise nothing.  At batch level, however, a non-empty
dry-run batch containing a skipped operation never reaches dispatch at all:
`_display_summary` raises `AttributeError` first (undefined `is_verbose`,
line 214), still with no mutation performed and the counter at 0. -/
theorem c7_dry_disabled_frame (cfg : Config) (i1 i2 : Inner) (ops : List Operation)
    (lines : List (Nat × Nat)) (op : Operation)
    (h : cfg.enabled = false ∨ cfg.dryRun = true) :
    executeTrace cfg i1 ops = executeTrace cfg i2 ops
  ∧ noMutation (executeTrace cfg i1 ops).fx = true
  ∧ (op.skipped = false →
      executeOperation cfg i1 lines op = ([Effect.writeLine (predispatchText op)], 0, false))
  ∧ (op.skipped = true →
      executeOperation cfg i1 lines op
        = (if cfg.verbose && (cfg.enabled || cfg.dryRun)
           then ([Effect.writeLine (skipText op)], 0, false) else ([], 0, false)))
  ∧ (summaryRaises cfg ops = true →
      (executeTrace cfg i1 ops).raised = true
      ∧ (executeTrace cfg i1 ops).executedOperations = 0
      ∧ (executeTrace cfg i1 ops).fx = summaryFx cfg ops) := by
  refine ⟨executeTrace_off_indep cfg i1 i2 ops h, executeTrace_off_noMut cfg i1 ops h,
    ?_, ?_, ?_⟩
  · intro hsk
    rw [executeOperation_off cfg i1 lines op h, if_neg]
    rw [hsk]
    exact Bool.false_ne_true
  · intro hsk
    rw [executeOperation_off cfg i1 lines op h, if_pos hsk]
  · intro hsr
    have htr : executeTrace cfg i1 ops
        = { fx := summaryFx cfg ops, executedOperations := 0, raised := true,
            ret := none } := by
      unfold executeTrace
      rw [if_pos hsr]
    rw [htr]
    exact ⟨rfl, rfl, rfl⟩

/-- C7 witness: in dry-run mode with a one-operation batch the trace contains
no mutation effect and does not depend on the inner actions. -/
theorem c7_dry_disabled_witness :
    (cfgDry.enabled = false ∨ cfgDry.dryRun = true)
  ∧ executeTrace cfgDry innerNone [opInstallP0]
      = executeTrace cfgDry (uninstallInner rmEnvOk) [opInstallP0]
  ∧ noMutation (executeTrace cfgDry innerNone [opInstallP0]).fx = true :=
  ⟨Or.inr rfl,
   (c7_dry_disabled_frame cfgDry innerNone (uninstallInner rmEnvOk) [opInstallP0] []
     opInstallP0 (Or.inr rfl)).1,
   (c7_dry_disabled_frame cfgDry innerNone (uninstallInner rmEnvOk) [opInstallP0] []
     opInstallP0 (Or.inr rfl)).2.1⟩

/-- C7 counterexample: in dry-run mode a batch with one non-skipped operation
prints that operation's status line twice (the scheduler pre-dispatch line of
line 89 and the dispatcher planned-action line of line 134), refuting
"exactly one reported status line per operation". -/
theorem c7_counterexample :
    cfgDry.dryRun = true
  ∧ ((executeTrace cfgDry innerNone [opInstallP0]).fx.filter
      (fun e => decide (e = Effect.writeLine (predispatchText opInstallP0)))).length = 2 := by
  decide

/-! ## Lemmas about the per-chunk row allocation -/

theorem lookup_append_left_none (a : Nat) :
    ∀ (l1 l2 : List (Nat × Nat)), l1.lookup a = none →
      (l1 ++ l2).lookup a = l2.lookup a := by
  intro l1 l2
  induction l1 with
  | nil => intro _; rfl
  | cons hd tl ih =>
    intro h
    obtain ⟨k, v⟩ := hd
    cases hk : a == k
    · simp only [List.lookup, hk] at h
      simp only [List.cons_append, List.lookup, hk]
      exact ih h
    · simp only [List.lookup, hk] at h
      cases h

theorem lookup_singleton_ne (a k : Nat) (v : Nat) (h : a ≠ k) :
    ([(k, v)] : List (Nat × Nat)).lookup a = none := by
  simp only [List.lookup, beq_eq_false_iff_ne.mpr h]

theorem buildLines_spec :
    ∀ (rest : List Operation) (m : List (Nat × Nat)) (fx : List Effect),
      (∀ op ∈ rest, m.lookup op.opId = none) →
      (rest.map (fun o => o.opId)).Nodup →
      buildLines m fx rest
        = (m ++ rowsFrom m.length rest,
           fx ++ rest.map (fun op => Effect.writeLine (predispatchText op))) := by
  intro rest
  induction rest with
  | nil =>
    intro m fx _ _
    simp [buildLines, rowsFrom]
  | cons op t ih =>
    intro m fx hfresh hnodup
    have hop : m.lookup op.opId = none := hfresh op (List.mem_cons_self op t)
    have hnd : (∀ x ∈ t, ¬x.opId = op.opId) ∧ (t.map (fun o => o.opId)).Nodup := by
      simpa using hnodup
    unfold buildLines
    rw [if_neg (by rw [hop]; simp)]
    rw [ih (m ++ [(op.opId, m.length)]) (fx ++ [Effect.writeLine (predispatchText op)]) ?_ hnd.2]
    · rw [List.length_append]
      simp only [List.length_singleton]
      rw [List.append_assoc, List.append_assoc]
      simp [rowsFrom]
    · intro q hq
      rw [lookup_append_left_none q.opId m [(op.opId, m.length)]
        (hfresh q (List.mem_cons_of_mem op hq))]
      exact lookup_singleton_ne q.opId op.opId m.length (hnd.1 q hq)

theorem rowsFrom_lookup :
    ∀ (chunk : List Operation) (base : Nat) (i : Nat) (hi : i < chunk.length),
      (chunk.map (fun o => o.opId)).Nodup →
      (rowsFrom base chunk).lookup (chunk.get ⟨i, hi⟩).opId = some (base + i) := by
  intro chunk
  induction chunk with
  | nil =>
    intro base i hi
    simp at hi
  | cons op t ih =>
    intro base i hi hnodup
    have hnd : (∀ x ∈ t, ¬x.opId = op.opId) ∧ (t.map (fun o => o.opId)).Nodup := by
      simpa using hnodup
    cases i with
    | zero =>
      simp only [List.get, rowsFrom, List.lookup, beq_self_eq_true]
      rfl
    | succ j =>
      have hj : j < t.length := by simpa using hi
      have hne : (t.get ⟨j, hj⟩).opId ≠ op.opId := hnd.1 _ (t.get_mem j hj)
      show (rowsFrom base (op :: t)).lookup (t.get ⟨j, hj⟩).opId = some (base + (j + 1))
      simp only [rowsFrom, List.lookup, beq_eq_false_iff_ne.mpr hne]
      rw [ih (base + 1) j hj hnd.2]
      congr 1
      omega

/-- C8 (amended): before dispatching a chunk, `execute` prints one progress
line per operation of the chunk — including skipped operations — in chunk
order, and records each operation id with its 0-based position among those
lines (not its 1-based position); the map is rebuilt from empty for every
chunk (`chunkSetup` starts from the empty map). -/
theorem c8_chunk_rows (chunk : List Operation)
    (h : (chunk.map (fun o => o.opId)).Nodup) :
    (chunkSetup chunk).2 = chunk.map (fun op => Effect.writeLine (predispatchText op))
  ∧ ∀ (i : Nat) (hi : i < chunk.length),
      ((chunkSetup chunk).1).lookup (chunk.get ⟨i, hi⟩).opId = some i := by
  have hs : chunkSetup chunk
      = (rowsFrom 0 chunk, chunk.map (fun op => Effect.writeLine (predispatchText op))) := by
    unfold chunkSetup
    rw [buildLines_spec chunk [] [] (fun op _ => rfl) h]
    simp
  constructor
  · rw [hs]
  · intro i hi
    rw [hs]
    have := rowsFrom_lookup chunk 0 i hi h
    simpa using this

/-- C8 witness: a concrete two-operation chunk gets exactly its two progress
lines and rows 0 and 1. -/
theorem c8_chunk_rows_witness :
    ([opInstallP0, opUninstallB].map (fun o => o.opId)).Nodup
  ∧ (chunkSetup [opInstallP0, opUninstallB]).2
      = [Effect.writeLine (predispatchText opInstallP0),
         Effect.writeLine (predispatchText opUninstallB)] :=
  ⟨by decide, (c8_chunk_rows [opInstallP0, opUninstallB] (by decide)).1⟩

/-- C8 counterexample: a chunk consisting of one skipped operation still gets
a pre-dispatch progress line (the loop of lines 86-93 does not test
`operation.skipped`), and its recorded row is 0, not the 1-based position 1. -/
theorem c8_counterexample :
    opSkip7.skipped = true
  ∧ (chunkSetup [opSkip7]).2.length = 1
  ∧ (chunkSetup [opSkip7]).1.lookup 7 = some 0 := by
  decide


/-! ## Lemmas about escape-sequence emission -/

theorem escWrite_esc2 (s t : String) : escWrite (Effect.write ("\x1b[" ++ s ++ t)) = true := by
  show List.isPrefixOf "\x1b[".data ("\x1b[" ++ s ++ t).data = true
  rw [String.data_append, String.data_append, List.isPrefixOf_iff_prefix, List.append_assoc]
  exact List.prefix_append _ _

theorem writeEffects_any_esc (lines : List (Nat × Nat)) (op : Operation) (line : String) :
    (writeEffects lines op line).any escWrite = true := by
  unfold writeEffects
  simp only [List.any_cons, List.any_nil, Bool.or_eq_true]
  exact Or.inl (escWrite_esc2 _ _)

theorem executeOperation_success_esc (cfg : Config) (inner : Inner)
    (lines : List (Nat × Nat)) (op : Operation)
    (hsk : op.skipped = false) (hE : cfg.enabled = true) (hD : cfg.dryRun = false)
    (hR : inner.raises op = false) :
    (executeOperation cfg inner lines op).1.any escWrite = true := by
  unfold executeOperation
  rw [hsk, hE, hD, hR]
  simp [List.any_append, writeEffects_any_esc]

theorem dlLoop_fx_off (cfg : Config) (lines : List (Nat × Nat)) (op : Operation)
    (msg : String) (size : Option Nat) (h : (cfg.supportsAnsi || cfg.isDebug) = false) :
    ∀ (done : Nat) (cs : List Bytes), (dlLoop cfg lines op msg size done cs).2 = [] := by
  intro done cs
  induction cs generalizing done with
  | nil => rfl
  | cons c t ih =>
    unfold dlLoop
    split
    · rfl
    · simp only [h, Bool.false_eq_true, if_false, List.nil_append]
      exact ih (done + c.length)

theorem downloadCore_fx_off (cfg : Config) (env : DlEnv) (lines : List (Nat × Nat))
    (op : Operation) (st : DlState)
    (hA : cfg.supportsAnsi = false) (hDbg : cfg.isDebug = false) :
    (downloadCore cfg env lines op st).fx.all (fun e => !escWrite e) = true := by
  have hoff : (cfg.supportsAnsi || cfg.isDebug) = false := by rw [hA, hDbg]; rfl
  by_cases hc : (st.fs.lookup (cachePath op.package env.link)).isSome = true
  · simp [downloadCore, hc, escWrite]
  · by_cases hw : env.link.isWheel = true
    · simp [downloadCore, hc, hw, hA, hDbg,
        dlLoop_fx_off cfg lines op (downloadingText op) env.contentLength hoff, escWrite]
    · simp [downloadCore, hc, hw, hA, hDbg,
        dlLoop_fx_off cfg lines op (downloadingText op) env.contentLength hoff, escWrite]

theorem download_fx_eq_core (cfg : Config) (env : DlEnv) (lines : List (Nat × Nat))
    (op : Operation) (st : DlState) :
    (download cfg env lines op st).fx = (downloadCore cfg env lines op st).fx := by
  unfold download
  by_cases hf : op.package.files.isEmpty = true
  · rw [if_pos hf]
  · rw [if_neg hf]
    dsimp only
    split <;> rfl

/-- C9 (amended): the progress reporter `_write` emits cursor-movement escape
sequences unconditionally, so the terminal success line of a completed
operation always goes through the escape-based rewrite path regardless of
ANSI support or debug mode; append-only degradation does hold inside
`_download`: on a non-ANSI, non-debug console the download path emits its
status line with `write_line` and no raw escape write at all (the percentage
rewrites are suppressed). -/
theorem c9_escape_emission (cfg : Config) (inner : Inner) (lines : List (Nat × Nat))
    (op : Operation) (env : DlEnv) (st : DlState)
    (hsk : op.skipped = false) (hE : cfg.enabled = true) (hD : cfg.dryRun = false)
    (hR : inner.raises op = false)
    (hA : cfg.supportsAnsi = false) (hDbg : cfg.isDebug = false) :
    (executeOperation cfg inner lines op).1.any escWrite = true
  ∧ (download cfg env lines op st).fx.all (fun e => !escWrite e) = true := by
  refine ⟨executeOperation_success_esc cfg inner lines op hsk hE hD hR, ?_⟩
  rw [download_fx_eq_core]
  exact downloadCore_fx_off cfg env lines op st hA hDbg

/-- C9 witness: concrete non-ANSI, non-debug run of one successful operation
and one download. -/
theorem c9_escape_emission_witness :
    cfgNoAnsi.supportsAnsi = false ∧ cfgNoAnsi.isDebug = false
  ∧ (executeOperation cfgNoAnsi (uninstallInner rmEnvOk) [(3, 0)] opUninstallB).1.any
      escWrite = true
  ∧ (download cfgNoAnsi dlEnvW [(3, 0)] opUninstallB stEmpty).fx.all
      (fun e => !escWrite e) = true :=
  ⟨rfl, rfl,
   (c9_escape_emission cfgNoAnsi (uninstallInner rmEnvOk) [(3, 0)] opUninstallB dlEnvW
     stEmpty rfl rfl rfl (by decide) rfl rfl).1,
   (c9_escape_emission cfgNoAnsi (uninstallInner rmEnvOk) [(3, 0)] opUninstallB dlEnvW
     stEmpty rfl rfl rfl (by decide) rfl rfl).2⟩

/-- C9 counterexample: on a console without cursor control (and not in debug
mode), executing one uninstall operation still emits cursor-movement escape
sequences — both the "Removing..." rewrite and the success-line rewrite go
through `_write`, which never checks the console capability — refuting
"no cursor-movement escape sequences are ever emitted". -/
theorem c9_counterexample :
    cfgNoAnsi.supportsAnsi = false
  ∧ cfgNoAnsi.isDebug = false
  ∧ (executeTrace cfgNoAnsi (uninstallInner rmEnvOk) [opUninstallB]).fx.any escWrite
      = true := by
  decide


/-! ## Uninstall semantics (C4) -/

/-- C4: for an Uninstall executed in enabled, non-dry-run mode, a git-sourced
package first has its checkout directory removed, and only when it exists (no
action and no error when absent); the pip uninstall action is always invoked
for the package name; a `CalledProcessError` whose message contains
"not installed" is treated as success; every other failure propagates; and
`_execute_uninstall` first rewrites the status line to "Removing..." before
performing the removal. -/
theorem c4_uninstall_behaviour (op : Operation) (env : RmEnv) (msg : String)
    (lines : List (Nat × Nat)) :
    (op.package.sourceType = "git" → env.srcDirExists = true →
      removeFx op.package env
        = [Effect.mut ("rmtree " ++ srcPath op.package),
           Effect.run (runArgs ["uninstall", op.package.name, "-y"])])
  ∧ (op.package.sourceType = "git" → env.srcDirExists = false →
      removeFx op.package env = [Effect.run (runArgs ["uninstall", op.package.name, "-y"])])
  ∧ Effect.run (runArgs ["uninstall", op.package.name, "-y"]) ∈ removeFx op.package env
  ∧ (env.pipUninstall = .error (.calledProcess msg) →
      containsSub "not installed".data msg.data = true → removeResult env = .ok ())
  ∧ (env.pipUninstall = .error (.calledProcess msg) →
      containsSub "not installed".data msg.data = false →
      removeResult env = .error (.calledProcess msg))
  ∧ (env.pipUninstall = .error (.other msg) → removeResult env = .error (.other msg))
  ∧ (env.pipUninstall = .ok () → removeResult env = .ok ())
  ∧ (execUninstall lines op env).1
      = writeEffects lines op (removingText op) ++ removeFx op.package env := by
  refine ⟨?_, ?_, ?_, ?_, ?_, ?_, ?_, rfl⟩
  · intro hg he
    unfold removeFx
    rw [if_pos hg, if_pos he]
    rfl
  · intro hg he
    unfold removeFx
    rw [if_pos hg, if_neg (by rw [he]; exact Bool.false_ne_true)]
    rfl
  · unfold removeFx
    exact List.mem_append_right _ (by simp)
  · intro hp hc
    unfold removeResult
    rw [hp]
    simp [hc]
  · intro hp hc
    unfold removeResult
    rw [hp]
    simp [hc]
  · intro hp
    unfold removeResult
    rw [hp]
  · intro hp
    unfold removeResult
    rw [hp]

/-- C4 witness: a pip failure reporting "not installed" is swallowed and the
uninstall succeeds. -/
theorem c4_uninstall_witness :
    rmEnvAbsent.pipUninstall
      = Except.error (PipErr.calledProcess "Cannot uninstall: b is not installed.")
  ∧ containsSub "not installed".data "Cannot uninstall: b is not installed.".data = true
  ∧ removeResult rmEnvAbsent = .ok () :=
  ⟨rfl, by decide,
   (c4_uninstall_behaviour opUninstallB rmEnvAbsent
     "Cannot uninstall: b is not installed." []).2.2.2.1 rfl (by decide)⟩

/-! ## Directory install cleanup (C5, C10) -/

/-- C5: whenever `_install_directory` synthesizes a temporary `setup.py`
(poetry manifest present, no pre-existing `setup.py`), the script is absent
from the source directory on return, on both the success path and the raise
path of the pip invocation (the removal happens in the `finally` block). -/
theorem c5_directory_cleanup (pkg : Package) (env : DirEnv)
    (h : (installDirectory pkg env).synthesized = true) :
    (installDirectory pkg env).setupPresent = false
  ∧ (installDirectory pkg { env with runRaises := true }).setupPresent = false
  ∧ (installDirectory pkg { env with runRaises := false }).setupPresent = false := by
  cases hs : env.setupExists <;> cases hp : env.hasPyproject <;>
    cases ht : env.hasPoetryTool <;> cases hd : pkg.develop <;>
      simp_all [installDirectory]

/-- C5 witness: a develop-mode directory package with a poetry manifest and
no `setup.py` synthesizes the script, the pip invocation raises, and the
script is nevertheless absent afterwards. -/
theorem c5_directory_cleanup_witness :
    (installDirectory devPkg dirEnvSynth).synthesized = true
  ∧ (installDirectory devPkg dirEnvSynth).raised = true
  ∧ (installDirectory devPkg dirEnvSynth).setupPresent = false :=
  ⟨by decide, by decide, (c5_directory_cleanup devPkg dirEnvSynth (by decide)).1⟩

/-- C10: a pre-existing `setup.py` is never overwritten (no synthesis happens
when the file exists) and is still present when `_install_directory` returns,
whether the pip invocation succeeded or raised: the `finally` block removes
the script only when it did not exist before the call. -/
theorem c10_preexisting_setup (pkg : Package) (env : DirEnv)
    (h : env.setupExists = true) :
    (installDirectory pkg env).synthesized = false
  ∧ (installDirectory pkg env).setupPresent = true
  ∧ (installDirectory pkg { env with runRaises := true }).setupPresent = true
  ∧ (installDirectory pkg { env with runRaises := false }).setupPresent = true := by
  simp [installDirectory, h]

/-- C10 witness: with a pre-existing `setup.py` and a raising pip invocation
the script survives and nothing was synthesized. -/
theorem c10_preexisting_setup_witness :
    dirEnvSetup.setupExists = true
  ∧ (installDirectory devPkg dirEnvSetup).synthesized = false
  ∧ (installDirectory devPkg dirEnvSetup).setupPresent = true :=
  ⟨rfl, (c10_preexisting_setup devPkg dirEnvSetup rfl).1,
   (c10_preexisting_setup devPkg dirEnvSetup rfl).2.1⟩


/-! ## Artifact fetch lemmas (C3, C6) -/

theorem download_state_eq_core (cfg : Config) (env : DlEnv) (lines : List (Nat × Nat))
    (op : Operation) (st : DlState) :
    (download cfg env lines op st).state = (downloadCore cfg env lines op st).state := by
  unfold download
  by_cases hf : op.package.files.isEmpty = true
  · rw [if_pos hf]
  · rw [if_neg hf]
    dsimp only
    split <;> rfl

theorem download_ok_of_contains (cfg : Config) (env : DlEnv) (lines : List (Nat × Nat))
    (op : Operation) (st : DlState)
    (h : op.package.files = []
      ∨ (hashesOf op.package).contains
          ("sha256:" ++ env.sha256hex
            (((downloadCore cfg env lines op st).state.fs.lookup
              (downloadCore cfg env lines op st).path).getD [])) = true) :
    (download cfg env lines op st).result = .ok (downloadCore cfg env lines op st).path := by
  unfold download
  by_cases hf : op.package.files.isEmpty = true
  · rw [if_pos hf]
  · rw [if_neg hf]
    dsimp only
    rcases h with h | h
    · exact absurd (by rw [h]; rfl) hf
    · rw [if_pos h]

/-- C3: hash verification in `_download` runs exactly when the package
declares expected files; it computes `"sha256:" + <hex hash of the archive
contents>` and succeeds precisely when that string is among the declared
hashes; with no declared files, no hash is computed at all (the result does
not depend on the hash oracle) and the archive is returned directly; and when
the hash check raises, `_install` performs no pip invocation and propagates
the error. -/
theorem c3_hash_verification (cfg : Config) (env : DlEnv) (lines : List (Nat × Nat))
    (op : Operation) (st : DlState) (f g : Bytes → String) :
    (op.package.files ≠ [] →
      (download cfg env lines op st).checkedHash
          = some ("sha256:" ++ env.sha256hex (downloadedContent cfg env lines op st))
      ∧ exceptOk (download cfg env lines op st).result
          = (hashesOf op.package).contains
              ("sha256:" ++ env.sha256hex (downloadedContent cfg env lines op st)))
  ∧ (op.package.files = [] →
      (download cfg env lines op st).result = .ok (downloadCore cfg env lines op st).path
      ∧ (download cfg env lines op st).checkedHash = none
      ∧ download cfg { env with sha256hex := f } lines op st
          = download cfg { env with sha256hex := g } lines op st)
  ∧ (∀ e, (download cfg env lines op st).result = .error e →
      (installRegistry cfg env lines op st).pipCalls = []
      ∧ (installRegistry cfg env lines op st).result = .error e) := by
  refine ⟨?_, ?_, ?_⟩
  · intro hne
    have hf : ¬(op.package.files.isEmpty = true) := by
      cases hfl : op.package.files with
      | nil => exact absurd hfl hne
      | cons a l => simp
    unfold download
    rw [if_neg hf]
    dsimp only
    by_cases hh : (hashesOf op.package).contains
        ("sha256:" ++ env.sha256hex
          (((downloadCore cfg env lines op st).state.fs.lookup
            (downloadCore cfg env lines op st).path).getD [])) = true
    · rw [if_pos hh]
      exact ⟨rfl, by unfold downloadedContent; exact hh.symm⟩
    · rw [if_neg hh]
      refine ⟨rfl, ?_⟩
      have hh2 : (hashesOf op.package).contains
          ("sha256:" ++ env.sha256hex
            (((downloadCore cfg env lines op st).state.fs.lookup
              (downloadCore cfg env lines op st).path).getD [])) = false :=
        Bool.eq_false_iff.mpr hh
      unfold downloadedContent
      exact hh2.symm
  · intro hfl
    have hf : op.package.files.isEmpty = true := by rw [hfl]; rfl
    refine ⟨?_, ?_, ?_⟩
    · unfold download
      rw [if_pos hf]
    · unfold download
      rw [if_pos hf]
    · unfold download
      rw [if_pos hf, if_pos hf]
      rfl
  · intro e he
    unfold installRegistry
    dsimp only
    rw [he]
    exact ⟨rfl, rfl⟩

/-- C3 witness: the hash-declaring package has its computed hash checked
against the declared set on a concrete fetch. -/
theorem c3_hash_verification_witness :
    opInstallC.package.files ≠ []
  ∧ (download cfgDefault dlEnvW [] opInstallC stEmpty).checkedHash
      = some ("sha256:"
          ++ dlEnvW.sha256hex (downloadedContent cfgDefault dlEnvW [] opInstallC stEmpty))
  ∧ exceptOk (download cfgDefault dlEnvW [] opInstallC stEmpty).result
      = (hashesOf opInstallC.package).contains
          ("sha256:"
            ++ dlEnvW.sha256hex (downloadedContent cfgDefault dlEnvW [] opInstallC stEmpty)) := by
  have h := (c3_hash_verification cfgDefault dlEnvW [] opInstallC stEmpty
    (fun _ => "x") (fun _ => "y")).1 (by decide)
  exact ⟨by decide, h.1, h.2⟩

theorem dlLoop_content (cfg : Config) (lines : List (Nat × Nat)) (op : Operation)
    (msg : String) (size : Option Nat) :
    ∀ (done : Nat) (cs : List Bytes), (∀ c ∈ cs, c ≠ []) →
      (dlLoop cfg lines op msg size done cs).1 = cs.flatten := by
  intro done cs
  induction cs generalizing done with
  | nil => intro _; rfl
  | cons c t ih =>
    intro h
    have hc : c.isEmpty = false := by simpa using h c (List.mem_cons_self c t)
    unfold dlLoop
    rw [if_neg (by rw [hc]; exact Bool.false_ne_true)]
    dsimp only
    rw [List.flatten_cons, ih (done + c.length) fun d hd => h d (List.mem_cons_of_mem c hd)]


theorem downloadCore_hit (cfg : Config) (env : DlEnv) (lines : List (Nat × Nat))
    (op : Operation) (st : DlState)
    (h : (st.fs.lookup (cachePath op.package env.link)).isSome = true) :
    downloadCore cfg env lines op st
      = { path := cachePath op.package env.link, state := st,
          fx := [Effect.mut ("mkdir -p " ++ cacheRoot ++ "/" ++ op.package.name)] } := by
  unfold downloadCore
  dsimp only
  rw [if_pos h]

theorem downloadCore_miss_state (cfg : Config) (env : DlEnv) (lines : List (Nat × Nat))
    (op : Operation) (st : DlState)
    (h : (st.fs.lookup (cachePath op.package env.link)).isSome = false) :
    (env.link.isWheel = true →
      (downloadCore cfg env lines op st).path = cachePath op.package env.link
      ∧ (downloadCore cfg env lines op st).state
        = { fs := (cachePath op.package env.link, env.body) :: st.fs,
            networkRequests := st.networkRequests + 1, chefCalls := st.chefCalls })
  ∧ (env.link.isWheel = false →
      (downloadCore cfg env lines op st).path
        = env.preparePath (cachePath op.package env.link)
      ∧ (downloadCore cfg env lines op st).state
        = { fs := (env.preparePath (cachePath op.package env.link),
                env.prepareBytes env.body)
              :: (cachePath op.package env.link, env.body) :: st.fs,
            networkRequests := st.networkRequests + 1, chefCalls := st.chefCalls + 1 }) := by
  have hbody : (dlLoop cfg lines op (downloadingText op) env.contentLength 0
      (chunked env.body 4096)).1 = env.body := by
    rw [dlLoop_content cfg lines op (downloadingText op) env.contentLength 0
      (chunked env.body 4096) fun c hc => (chunked_mem env.body 4096 (by decide) c hc).2]
    exact chunked_flatten env.body 4096 (by decide)
  constructor
  · intro hw
    constructor <;> simp [downloadCore, h, hw, hbody]
  · intro hw
    constructor <;> simp [downloadCore, h, hw, hbody]

/-- C6: fetching an uncached artifact performs exactly one network download,
streaming the body in chunks of at most 4096 bytes whose concatenation is the
full body into the cache file, and invokes the chef exactly when the link is
not a wheel; a second fetch of the same package and filename performs no
network request, leaves the state untouched, and returns the cached path
(when the hash verification passes or no hashes are declared). -/
theorem c6_cache_reuse (cfg : Config) (env : DlEnv) (lines : List (Nat × Nat))
    (op : Operation) (st : DlState)
    (h1 : st.fs.lookup (cachePath op.package env.link) = none)
    (h2 : env.link.isWheel = true
        ∨ env.preparePath (cachePath op.package env.link) ≠ cachePath op.package env.link) :
    (download cfg env lines op st).state.networkRequests = st.networkRequests + 1
  ∧ (download cfg env lines op st).state.fs.lookup (cachePath op.package env.link)
      = some env.body
  ∧ (env.link.isWheel = false →
      (download cfg env lines op st).state.chefCalls = st.chefCalls + 1)
  ∧ (env.link.isWheel = true →
      (download cfg env lines op st).state.chefCalls = st.chefCalls)
  ∧ (∀ c ∈ chunked env.body 4096, c.length ≤ 4096 ∧ c ≠ [])
  ∧ (download cfg env lines op (download cfg env lines op st).state).state
      = (download cfg env lines op st).state
  ∧ (op.package.files = [] →
      (download cfg env lines op (download cfg env lines op st).state).result
        = .ok (cachePath op.package env.link))
  ∧ (op.package.files ≠ [] →
      (hashesOf op.package).contains ("sha256:" ++ env.sha256hex env.body) = true →
      (download cfg env lines op (download cfg env lines op st).state).result
        = .ok (cachePath op.package env.link)) := by
  have hm : (st.fs.lookup (cachePath op.package env.link)).isSome = false := by
    rw [h1]; rfl
  have hmiss := downloadCore_miss_state cfg env lines op st hm
  have hstate := download_state_eq_core cfg env lines op st
  have hnet : (downloadCore cfg env lines op st).state.networkRequests
      = st.networkRequests + 1 := by
    cases hw : env.link.isWheel
    · rw [(hmiss.2 hw).2]
    · rw [(hmiss.1 hw).2]
  have hlook : (downloadCore cfg env lines op st).state.fs.lookup
      (cachePath op.package env.link) = some env.body := by
    cases hw : env.link.isWheel
    · rcases h2 with h2 | h2
      · rw [hw] at h2
        exact (Bool.false_ne_true h2).elim
      · rw [(hmiss.2 hw).2]
        have hba : ((cachePath op.package env.link)
            == env.preparePath (cachePath op.package env.link)) = false :=
          beq_eq_false_iff_ne.mpr (Ne.symm h2)
        simp [List.lookup, hba]
    · rw [(hmiss.1 hw).2]
      simp [List.lookup]
  have hl2 : ((download cfg env lines op st).state.fs.lookup
      (cachePath op.package env.link)).isSome = true := by
    rw [hstate, hlook]; rfl
  have hcore2 := downloadCore_hit cfg env lines op (download cfg env lines op st).state hl2
  refine ⟨?_, ?_, ?_, ?_, ?_, ?_, ?_, ?_⟩
  · rw [hstate]; exact hnet
  · rw [hstate]; exact hlook
  · intro hw
    rw [hstate, (hmiss.2 hw).2]
  · intro hw
    rw [hstate, (hmiss.1 hw).2]
  · exact fun c hc => chunked_mem env.body 4096 (by decide) c hc
  · rw [download_state_eq_core, hcore2]
  · intro hfl
    have hok := download_ok_of_contains cfg env lines op
      (download cfg env lines op st).state (Or.inl hfl)
    rw [hcore2] at hok
    exact hok
  · intro hne hcont
    have hok : (download cfg env lines op (download cfg env lines op st).state).result
        = .ok (downloadCore cfg env lines op (download cfg env lines op st).state).path := by
      apply download_ok_of_contains
      right
      rw [hcore2]
      show (hashesOf op.package).contains
        ("sha256:" ++ env.sha256hex
          (((download cfg env lines op st).state.fs.lookup
            (cachePath op.package env.link)).getD [])) = true
      rw [hstate, hlook]
      exact hcont
    rw [hcore2] at hok
    exact hok

/-- C6 witness: a concrete wheel fetched twice — one network request after
the first call, untouched state and the cached path after the second. -/
theorem c6_cache_reuse_witness :
    stEmpty.fs.lookup (cachePath opInstallP0.package dlEnvW.link) = none
  ∧ dlEnvW.link.isWheel = true
  ∧ (download cfgDefault dlEnvW [] opInstallP0 stEmpty).state.networkRequests
      = stEmpty.networkRequests + 1
  ∧ (download cfgDefault dlEnvW [] opInstallP0
      (download cfgDefault dlEnvW [] opInstallP0 stEmpty).state).state
      = (download cfgDefault dlEnvW [] opInstallP0 stEmpty).state
  ∧ (download cfgDefault dlEnvW [] opInstallP0
      (download cfgDefault dlEnvW [] opInstallP0 stEmpty).state).result
      = .ok (cachePath opInstallP0.package dlEnvW.link) := by
  have h := c6_cache_reuse cfgDefault dlEnvW [] opInstallP0 stEmpty rfl (Or.inl rfl)
  exact ⟨rfl, rfl, h.1, h.2.2.2.2.2.1, h.2.2.2.2.2.2.1 rfl⟩

end PoetryExec
